import Mathlib

/-!
Verification of the registry entry lifecycle manager of the
Windows-Context-Menu-Creator repository.

The Python modules `app/config.py`, `app/safety.py` and
`app/registry_manager.py` are shallowly embedded below.  The Windows
registry is modelled as two hives (HKEY_CLASSES_ROOT and
HKEY_CURRENT_USER), each an association list from full key paths to the
list of named string values stored at that key.  Filesystem existence and
the privilege check, which the Python code obtains from the OS, are
supplied by an explicit environment record.  Python exceptions become an
error type returned through `Except`.
-/

namespace ContextMenuCreator

/-- `TargetScope` from `app/config.py`: where the context-menu entry appears. -/
inductive TargetScope
  | ALL_FILES
  | DIRECTORY
  | DIR_BACKGROUND
  | EXTENSION
deriving DecidableEq

/-- The Python exceptions raised by the embedded code paths.
`keyError` corresponds to a `dict` lookup miss (unreachable in practice),
`osError` to a `winreg` failure such as deleting a key that still has
subkeys. -/
inductive PyErr
  | permissionError
  | fileNotFoundError
  | valueError
  | keyError
  | osError
deriving DecidableEq

/-- The scan of Python `str.replace`: leftmost non-overlapping matches of
`pat` are replaced by `rep`.  The fuel argument (instantiated with the
input length, which bounds the number of steps when `pat` is non-empty,
as it is at every call site) keeps the recursion structural. -/
def pyReplaceGo (pat rep : List Char) : Nat → List Char → List Char
  | _, [] => []
  | 0, s => s
  | fuel + 1, c :: rest =>
      if pat.isPrefixOf (c :: rest) then
        rep ++ pyReplaceGo pat rep fuel ((c :: rest).drop pat.length)
      else c :: pyReplaceGo pat rep fuel rest

/-- Python `str.replace`. -/
def pyReplace (s pat rep : String) : String :=
  ⟨pyReplaceGo pat.data rep.data s.data.length s.data⟩

/-- Python `s.replace("/", "\\")` as used by `MenuEntry.__post_init__`
and `MenuEntry.build_command` to normalize path separators. -/
def slashToBackslash (s : String) : String :=
  pyReplace s "/" "\\"

/-- Extension normalization from `MenuEntry.__post_init__`: prepend a dot
unless the string already starts with one (Python `str.startswith`). -/
def normalizeExt (ext : String) : String :=
  if (".".data.isPrefixOf ext.data) then ext else "." ++ ext

/-- Python truthiness of an optional string (`if self.icon:` and
`if icon:`): `None` and the empty string are falsy. -/
def pyTruthy : Option String → Bool
  | none => false
  | some s => !s.data.isEmpty

/-- A whitespace character for Python `str.strip`. -/
def pyIsSpace (c : Char) : Bool :=
  c = ' ' ∨ c = '\t' ∨ c = '\n' ∨ c = '\r' ∨ c = '\x0b' ∨ c = '\x0c'

/-- Python `str.strip()`: remove leading and trailing whitespace. -/
def pyStrip (s : String) : String :=
  ⟨((s.data.dropWhile pyIsSpace).reverse.dropWhile pyIsSpace).reverse⟩

/-- Python `path.split(",")[0]`: the characters before the first comma
(the whole string when no comma occurs). -/
def pyHeadSplitComma (s : String) : String :=
  ⟨s.data.takeWhile fun c => c ≠ ','⟩

/-- The `MenuEntry` dataclass from `app/config.py`, after
`__post_init__` has run. -/
structure MenuEntry where
  key_name : String
  display_name : String
  exe_path : String
  command_template : String
  icon : Option String
  scopes : List TargetScope
  extensions : List String
deriving DecidableEq

/-- Constructing a `MenuEntry`, i.e. the dataclass constructor followed by
`__post_init__`: reject the EXTENSION scope with an empty extension list
(`ValueError`), normalize `exe_path`, `icon` (only when truthy) and each
extension string. -/
def MenuEntry.construct (key_name display_name exe_path command_template : String)
    (icon : Option String) (scopes : List TargetScope) (extensions : List String) :
    Except PyErr MenuEntry :=
  if TargetScope.EXTENSION ∈ scopes ∧ extensions = [] then
    .error .valueError
  else
    .ok
      { key_name := key_name
        display_name := display_name
        exe_path := slashToBackslash exe_path
        command_template := command_template
        icon := if pyTruthy icon then icon.map slashToBackslash else icon
        scopes := scopes
        extensions := extensions.map normalizeExt }

/-- `MenuEntry.build_command`: substitute the two template slots.  Python
`str.format` fills both named fields in one pass; for the `exe_path` and
`target` slots used by this program this equals two successive textual
replacements. -/
def MenuEntry.build_command (e : MenuEntry) (placeholder : String) : String :=
  pyReplace (pyReplace e.command_template "{exe_path}" (slashToBackslash e.exe_path))
    "{target}" placeholder

/-! ### Registry model -/

/-- The named string values stored at one registry key; the name `""`
denotes the key's default value. -/
abbrev Values := List (String × String)

/-- One registry hive: an association list from full key paths (strings
with `\`-separated components) to the values stored at that key. -/
abbrev Hive := List (String × Values)

/-- The machine registry state: the two hives this program touches. -/
structure Registry where
  hkcr : Hive
  hkcu : Hive
deriving DecidableEq

/-- The empty registry. -/
def emptyRegistry : Registry := ⟨[], []⟩

/-- Look up the values stored at key path `p`. -/
def findKey : Hive → String → Option Values
  | [], _ => none
  | (q, vs) :: rest, p => if q = p then some vs else findKey rest p

/-- The key paths present in a hive. -/
def keysOf (h : Hive) : List String := h.map Prod.fst

/-- Set value `name` to `data` in one key's value list (overwrite or
append), the model of `winreg.SetValueEx`. -/
def setVal : Values → String → String → Values
  | [], name, data => [(name, data)]
  | (n, d) :: rest, name, data =>
      if n = name then (name, data) :: rest else (n, d) :: setVal rest name data

/-- Set value `name` of key `p` to `data`; a no-op if `p` is absent (the
Python code only calls this on a freshly created key handle). -/
def setValue : Hive → String → String → String → Hive
  | [], _, _, _ => []
  | (q, vs) :: rest, p, name, data =>
      if q = p then (q, setVal vs name data) :: rest
      else (q, vs) :: setValue rest p name data

/-! Path helpers.  Key paths are `\`-separated strings; the component
arithmetic is done on the underlying character lists. -/

/-- Split a character list on the backslash separator. -/
def splitPath : List Char → List (List Char)
  | [] => [[]]
  | c :: rest =>
      if c = '\\' then [] :: splitPath rest
      else
        match splitPath rest with
        | [] => [[c]]
        | g :: gs => (c :: g) :: gs

/-- Rejoin path components with the backslash separator. -/
def joinParts : List (List Char) → List Char
  | [] => []
  | [g] => g
  | g :: gs => g ++ '\\' :: joinParts gs

/-- All leading-segment joins of a component list, each prefixed with the
accumulated characters `acc`. -/
def ancestorsFrom (acc : List Char) : List (List Char) → List (List Char)
  | [] => []
  | g :: gs => (acc ++ g) :: ancestorsFrom (acc ++ g ++ ['\\']) gs

/-- Every ancestor key path of `p`, outermost first, ending with `p`
itself; `winreg.CreateKeyEx` creates all of these. -/
def pathAncestors (p : String) : List String :=
  (ancestorsFrom [] (splitPath p.data)).map fun l => ⟨l⟩

/-- Add key `p` with no values unless it is already present. -/
def addKeyIfAbsent (h : Hive) (p : String) : Hive :=
  if (findKey h p).isSome then h else h ++ [(p, [])]

/-- The model of `winreg.CreateKeyEx`: create `p` and every missing
ancestor, leaving existing keys untouched. -/
def createKey (h : Hive) (p : String) : Hive :=
  (pathAncestors p).foldl addKeyIfAbsent h

/-- Is `q` a strict descendant key path of `parent`? -/
def isStrictUnder (parent q : String) : Bool :=
  (parent.data ++ ['\\']).isPrefixOf q.data

/-- Does key `p` have any descendant key in the hive? -/
def hasChildKey (h : Hive) (p : String) : Bool :=
  (keysOf h).any fun q => isStrictUnder p q

/-- The model of `winreg.DeleteKey`: `FileNotFoundError` when the key is
absent, `OSError` when it still has subkeys, otherwise remove it. -/
def deleteKey (h : Hive) (p : String) : Except PyErr Hive :=
  if (findKey h p).isNone then .error .fileNotFoundError
  else if hasChildKey h p then .error .osError
  else .ok (h.filter fun kv => kv.1 ≠ p)

/-- The model of `winreg.OpenKey` followed by `winreg.QueryValueEx`:
`FileNotFoundError` when the key or the value is absent. -/
def queryValue (h : Hive) (p name : String) : Except PyErr String :=
  match findKey h p with
  | none => .error .fileNotFoundError
  | some vs =>
      match vs.lookup name with
      | none => .error .fileNotFoundError
      | some d => .ok d

/-- If `full` is a direct child key path of `parent`, its final component,
otherwise `none`. -/
def directChildName (parent full : String) : Option String :=
  if (parent.data ++ ['\\']).isPrefixOf full.data then
    if full.data.drop (parent.data ++ ['\\']).length = [] ∨
        '\\' ∈ full.data.drop (parent.data ++ ['\\']).length then none
    else some ⟨full.data.drop (parent.data ++ ['\\']).length⟩
  else none

/-- The names of the direct subkeys of `p`, the model of
`winreg.QueryInfoKey` plus `winreg.EnumKey`. -/
def subkeysOf (h : Hive) (p : String) : List String :=
  (keysOf h).filterMap (directChildName p)

/-! ### Environment and safety checks (`app/safety.py`) -/

/-- The ambient OS facts the Python code consults: the privilege check,
which filesystem paths exist as files and as directories, and path
resolution (`Path.resolve`). -/
structure Env where
  isAdmin : Bool
  files : List String
  dirs : List String
  resolve : String → String

/-- `safety.is_admin`. -/
def is_admin (env : Env) : Bool := env.isAdmin

/-- `safety.require_admin`: raise `PermissionError` when not elevated. -/
def require_admin (env : Env) : Except PyErr Unit :=
  if is_admin env then .ok () else .error .permissionError

/-- `safety.validate_exe_path`: resolve, then fail with
`FileNotFoundError` when the path does not exist or is not a regular
file (the `.exe` suffix check only logs a warning). -/
def validate_exe_path (env : Env) (path : String) : Except PyErr String :=
  let p := env.resolve path
  if p ∈ env.files ∨ p ∈ env.dirs then
    if p ∈ env.files then .ok p else .error .fileNotFoundError
  else .error .fileNotFoundError

/-- `safety.validate_icon_path`: `None` passes through; otherwise strip an
optional trailing comma-index suffix, resolve, and require an existing
regular file, returning the original string. -/
def validate_icon_path (env : Env) : Option String → Except PyErr (Option String)
  | none => .ok none
  | some path =>
      let raw := pyStrip (pyHeadSplitComma path)
      let p := env.resolve raw
      if p ∈ env.files ∨ p ∈ env.dirs then
        if p ∈ env.files then .ok (some path) else .error .fileNotFoundError
      else .error .fileNotFoundError

/-! ### Registry manager (`app/registry_manager.py`) -/

/-- `_SCOPE_ROOTS` from `app/registry_manager.py`: the scope-to-subtree
dictionary; EXTENSION is absent (handled dynamically). -/
def _SCOPE_ROOTS : TargetScope → Option String
  | .ALL_FILES => some "*\\shell"
  | .DIRECTORY => some "Directory\\shell"
  | .DIR_BACKGROUND => some "Directory\\Background\\shell"
  | .EXTENSION => none

/-- `_SCOPE_PLACEHOLDER` from `app/registry_manager.py`: `%1` is the
selected file path, `%V` the current directory path. -/
def _SCOPE_PLACEHOLDER : TargetScope → String
  | .ALL_FILES => "%1"
  | .DIRECTORY => "%V"
  | .DIR_BACKGROUND => "%V"
  | .EXTENSION => "%1"

/-- `RegistryManager._write_entry`: create `root\key_name` with the
display name (and icon when truthy) and the nested `command` subkey with
the rendered command; in dry-run mode change nothing. -/
def _write_entry (dry_run : Bool) (reg : Registry) (root : String) (entry : MenuEntry)
    (placeholder : String) (icon : Option String) : Registry :=
  let key_path := root ++ "\\" ++ entry.key_name
  let cmd_path := key_path ++ "\\command"
  let command := entry.build_command placeholder
  if dry_run then reg
  else
    let h := createKey reg.hkcr key_path
    let h := setValue h key_path "" entry.display_name
    let h :=
      if pyTruthy icon then setValue h key_path "Icon" (icon.getD "") else h
    let h := createKey h cmd_path
    let h := setValue h cmd_path "" command
    { reg with hkcr := h }

/-- One `winreg.DeleteKey` call wrapped in the `try/except
FileNotFoundError` of `RegistryManager._delete_entry`: a missing key is
already satisfied (logged, not raised); other failures propagate. -/
def deleteKeySkipMissing (h : Hive) (p : String) : Except PyErr Hive :=
  match deleteKey h p with
  | .ok h' => .ok h'
  | .error .fileNotFoundError => .ok h
  | .error e => .error e

/-- `RegistryManager._delete_entry`: delete the `command` subkey and then
the parent key, each tolerating `FileNotFoundError`; in dry-run mode
change nothing.  Any other `winreg` failure (`OSError`) propagates. -/
def _delete_entry (dry_run : Bool) (reg : Registry) (root key_name : String) :
    Except PyErr Registry :=
  let key_path := root ++ "\\" ++ key_name
  let cmd_path := key_path ++ "\\command"
  if dry_run then .ok reg
  else
    match deleteKeySkipMissing reg.hkcr cmd_path with
    | .error e => .error e
    | .ok h1 =>
        match deleteKeySkipMissing h1 key_path with
        | .error e => .error e
        | .ok h2 => .ok { reg with hkcr := h2 }

/-- One iteration of the per-extension write loop of
`RegistryManager.add_entry`: the root is `<ext>\shell`. -/
def extStep (dry_run : Bool) (entry : MenuEntry) (icon : Option String)
    (reg : Registry) (ext : String) : Registry :=
  _write_entry dry_run reg (ext ++ "\\shell") entry (_SCOPE_PLACEHOLDER .EXTENSION) icon

/-- One iteration of the scope loop of `RegistryManager.add_entry`: for
EXTENSION loop over the extensions, otherwise write under the mapped
root.  (The `none` fallback of the root lookup never fires: every
non-EXTENSION scope is in `_SCOPE_ROOTS`.) -/
def scopeStep (dry_run : Bool) (entry : MenuEntry) (icon : Option String)
    (reg : Registry) : TargetScope → Registry
  | .EXTENSION => entry.extensions.foldl (extStep dry_run entry icon) reg
  | s =>
      match _SCOPE_ROOTS s with
      | some root => _write_entry dry_run reg root entry (_SCOPE_PLACEHOLDER s) icon
      | none => reg

/-- The scope loop of `RegistryManager.add_entry`. -/
def add_writes (dry_run : Bool) (entry : MenuEntry) (icon : Option String)
    (reg : Registry) : Registry :=
  entry.scopes.foldl (scopeStep dry_run entry icon) reg

/-- `RegistryManager.add_entry`: require elevation, validate the
executable and icon paths, then write the entry under every requested
scope. -/
def add_entry (dry_run : Bool) (env : Env) (entry : MenuEntry) (reg : Registry) :
    Except PyErr Registry := do
  require_admin env
  let _exe ← validate_exe_path env entry.exe_path
  let icon ← validate_icon_path env entry.icon
  .ok (add_writes dry_run entry icon reg)

/-- One iteration of the per-extension delete loop of
`RegistryManager.remove_entry`. -/
def extDel (dry_run : Bool) (key_name : String) (reg : Registry) (ext : String) :
    Except PyErr Registry :=
  _delete_entry dry_run reg (ext ++ "\\shell") key_name

/-- One iteration of the scope loop of `RegistryManager.remove_entry`. -/
def scopeDel (dry_run : Bool) (entry : MenuEntry) (reg : Registry) :
    TargetScope → Except PyErr Registry
  | .EXTENSION => entry.extensions.foldlM (extDel dry_run entry.key_name) reg
  | s =>
      match _SCOPE_ROOTS s with
      | some root => _delete_entry dry_run reg root entry.key_name
      | none => .ok reg

/-- The scope loop of `RegistryManager.remove_entry`. -/
def remove_deletes (dry_run : Bool) (entry : MenuEntry) (reg : Registry) :
    Except PyErr Registry :=
  entry.scopes.foldlM (scopeDel dry_run entry) reg

/-- `RegistryManager.remove_entry`: require elevation, then delete the
entry from every requested scope. -/
def remove_entry (dry_run : Bool) (env : Env) (entry : MenuEntry) (reg : Registry) :
    Except PyErr Registry := do
  require_admin env
  remove_deletes dry_run entry reg

/-- `RegistryManager.list_entries`: the subkey names under the scope's
root (per-extension for EXTENSION, which requires the `extension`
argument), and `[]` when the root key does not exist. -/
def list_entries (reg : Registry) (scope : TargetScope) (extension : Option String) :
    Except PyErr (List String) :=
  match scope with
  | .EXTENSION =>
      match extension with
      | none => .error .valueError
      | some ext =>
          let root := ext ++ "\\shell"
          if (findKey reg.hkcr root).isSome then .ok (subkeysOf reg.hkcr root)
          else .ok []
  | s =>
      match _SCOPE_ROOTS s with
      | some root =>
          if (findKey reg.hkcr root).isSome then .ok (subkeysOf reg.hkcr root)
          else .ok []
      | none => .error .keyError

/-- The read-back record of `RegistryManager.read_entry_details`. -/
structure EntryDetails where
  display_name : String
  icon : Option String
  command : Option String
deriving DecidableEq

/-- `RegistryManager.read_entry_details`: `none` when the scope has no
static root (`_SCOPE_ROOTS.get`) or the key or its default value is
absent; the icon and command are each optional. -/
def read_entry_details (reg : Registry) (scope : TargetScope) (key_name : String) :
    Option EntryDetails :=
  match _SCOPE_ROOTS scope with
  | none => none
  | some root =>
      let key_path := root ++ "\\" ++ key_name
      match queryValue reg.hkcr key_path "" with
      | .error _ => none
      | .ok display_name =>
          let icon :=
            match queryValue reg.hkcr key_path "Icon" with
            | .ok v => some v
            | .error _ => none
          let command :=
            match queryValue reg.hkcr (key_path ++ "\\command") "" with
            | .ok v => some v
            | .error _ => none
          some { display_name := display_name, icon := icon, command := command }

/-- The `_WIN11_CLSID` constant of `RegistryManager` (under
HKEY_CURRENT_USER). -/
def _WIN11_CLSID : String :=
  "Software\\Classes\\CLSID\\\x7b86ca1aa0-34aa-4e8b-a509-50c905bae2a2\x7d\\InprocServer32"

/-- The parent CLSID key cleaned up by `restore_modern_menu`. -/
def _WIN11_CLSID_PARENT : String :=
  "Software\\Classes\\CLSID\\\x7b86ca1aa0-34aa-4e8b-a509-50c905bae2a2\x7d"

/-- `RegistryManager.is_classic_menu_forced`: true exactly when the flag
key's default value reads back as the empty string; any failure (missing
key or OS error) yields false. -/
def is_classic_menu_forced (reg : Registry) : Bool :=
  match queryValue reg.hkcu _WIN11_CLSID "" with
  | .ok v => v == ""
  | .error _ => false

/-- `RegistryManager.force_classic_menu`: create the flag key with an
empty default value; dry-run changes nothing.  Note the Python method
performs no elevation check. -/
def force_classic_menu (dry_run : Bool) (reg : Registry) : Registry :=
  if dry_run then reg
  else
    let h := createKey reg.hkcu _WIN11_CLSID
    let h := setValue h _WIN11_CLSID "" ""
    { reg with hkcu := h }

/-- `RegistryManager.restore_modern_menu`: delete the flag key, treating
absence as already satisfied, then best-effort delete the parent CLSID
key (all `OSError`s swallowed); dry-run changes nothing.  Note the Python
method performs no elevation check. -/
def restore_modern_menu (dry_run : Bool) (reg : Registry) : Except PyErr Registry :=
  if dry_run then .ok reg
  else
    match deleteKey reg.hkcu _WIN11_CLSID with
    | .error .fileNotFoundError => .ok reg
    | .error e => .error e
    | .ok h1 =>
        let h2 :=
          match deleteKey h1 _WIN11_CLSID_PARENT with
          | .ok h' => h'
          | .error _ => h1
        .ok { reg with hkcu := h2 }

/-- Iterated `add_entry`, used to state idempotence over any number of
repetitions. -/
def addTimes (dry_run : Bool) (env : Env) (entry : MenuEntry) :
    Nat → Registry → Except PyErr Registry
  | 0, reg => .ok reg
  | n + 1, reg => do
      let reg' ← add_entry dry_run env entry reg
      addTimes dry_run env entry n reg'

/-- The characters of a component list joined with a trailing separator
after every component; the accumulator shape of `ancestorsFrom`. -/
def partsAcc : List (List Char) → List Char
  | [] => []
  | g :: gs => g ++ '\\' :: partsAcc gs

/-- A concrete elevated environment with one executable file present. -/
def envAdmin : Env :=
  { isAdmin := true
    files := ["C:\\Apps\\Foo.exe"]
    dirs := []
    resolve := id }

/-- A concrete non-elevated environment. -/
def envNotAdmin : Env :=
  { isAdmin := false
    files := ["C:\\Apps\\Foo.exe"]
    dirs := []
    resolve := id }

/-- A concrete descriptor targeting the all-files scope. -/
def sampleEntry : MenuEntry :=
  { key_name := "Foo"
    display_name := "Open with Foo"
    exe_path := "C:\\Apps\\Foo.exe"
    command_template := "\"{exe_path}\" \"{target}\""
    icon := none
    scopes := [.ALL_FILES]
    extensions := [] }

/-- A concrete descriptor targeting the all-files and extension scopes. -/
def sampleEntryExt : MenuEntry :=
  { key_name := "Foo"
    display_name := "Open with Foo"
    exe_path := "C:\\Apps\\Foo.exe"
    command_template := "\"{exe_path}\" \"{target}\""
    icon := none
    scopes := [.ALL_FILES, .EXTENSION]
    extensions := [".txt"] }

/-- A concrete descriptor whose executable does not exist in `envAdmin`. -/
def sampleEntryMissing : MenuEntry :=
  { key_name := "Foo"
    display_name := "Open with Foo"
    exe_path := "C:\\Apps\\Missing.exe"
    command_template := "\"{exe_path}\" \"{target}\""
    icon := none
    scopes := [.ALL_FILES]
    extensions := [] }

/-- A concrete descriptor whose icon file does not exist in `envAdmin`. -/
def sampleEntryBadIcon : MenuEntry :=
  { key_name := "Foo"
    display_name := "Open with Foo"
    exe_path := "C:\\Apps\\Foo.exe"
    command_template := "\"{exe_path}\" \"{target}\""
    icon := some "C:\\Apps\\NoIcon.ico"
    scopes := [.ALL_FILES]
    extensions := [] }

/-- The registry after forcing the classic menu from the empty state. -/
def classicReg : Registry := force_classic_menu false emptyRegistry

/-- The registry after restoring the modern menu from `classicReg`: the
flag key and its parent CLSID key are gone, the remaining ancestors
stay. -/
def afterRestore : Registry :=
  { hkcr := []
    hkcu := [("Software", []), ("Software\\Classes", []),
             ("Software\\Classes\\CLSID", [])] }

/-- Decidable equality of `Except` results, used to evaluate the
operations on concrete witnesses. -/
instance exceptDecEq {e a : Type} [DecidableEq e] [DecidableEq a] :
    DecidableEq (Except e a) := fun x y =>
  match x, y with
  | .ok u, .ok v =>
      if h : u = v then isTrue (by rw [h])
      else isFalse fun hcon => h (Except.ok.inj hcon)
  | .error u, .error v =>
      if h : u = v then isTrue (by rw [h])
      else isFalse fun hcon => h (Except.error.inj hcon)
  | .ok _, .error _ => isFalse fun hcon => Except.noConfusion hcon
  | .error _, .ok _ => isFalse fun hcon => Except.noConfusion hcon

/-! ### Basic facts about strings and the hive model -/

theorem mk_data (s : String) : (⟨s.data⟩ : String) = s := by
  cases s; rfl

theorem strData_append (a b : String) : (a ++ b).data = a.data ++ b.data :=
  String.data_append a b

theorem findKey_isSome_iff (h : Hive) (p : String) :
    (findKey h p).isSome = true ↔ p ∈ keysOf h := by
  induction h with
  | nil => simp [findKey, keysOf]
  | cons kv rest ih =>
    obtain ⟨q, vs⟩ := kv
    by_cases hq : q = p
    · subst hq; simp [findKey, keysOf]
    · simp [findKey, keysOf, hq, ih, Ne.symm hq]

theorem findKey_eq_none_iff (h : Hive) (p : String) :
    findKey h p = none ↔ p ∉ keysOf h := by
  rw [← findKey_isSome_iff]
  cases findKey h p <;> simp

theorem keysOf_setValue (h : Hive) (p name data : String) :
    keysOf (setValue h p name data) = keysOf h := by
  induction h with
  | nil => rfl
  | cons kv rest ih =>
    obtain ⟨q, vs⟩ := kv
    simp only [keysOf] at ih ⊢
    by_cases hq : q = p
    · subst hq; simp [setValue]
    · simp [setValue, hq, ih]

theorem findKey_setValue_self (h : Hive) (p name data : String) :
    findKey (setValue h p name data) p =
      (findKey h p).map fun vs => setVal vs name data := by
  induction h with
  | nil => rfl
  | cons kv rest ih =>
    obtain ⟨q, vs⟩ := kv
    by_cases hq : q = p
    · subst hq; simp [setValue, findKey]
    · simp [setValue, findKey, hq, ih]

theorem lookup_setVal (vs : Values) (name data : String) :
    (setVal vs name data).lookup name = some data := by
  induction vs with
  | nil => simp [setVal, List.lookup]
  | cons nd rest ih =>
    obtain ⟨n, d⟩ := nd
    by_cases hn : n = name
    · subst hn; simp [setVal, List.lookup]
    · have hb : (name == n) = false := beq_eq_false_iff_ne.mpr (Ne.symm hn)
      simp [setVal, List.lookup, hn, hb, ih]

theorem mem_keysOf_addKeyIfAbsent (h : Hive) (p q : String) :
    q ∈ keysOf (addKeyIfAbsent h p) ↔ q ∈ keysOf h ∨ q = p := by
  unfold addKeyIfAbsent
  by_cases hp : (findKey h p).isSome
  · rw [if_pos hp]
    have hm := (findKey_isSome_iff h p).mp hp
    constructor
    · exact Or.inl
    · rintro (hq | rfl)
      · exact hq
      · exact hm
  · rw [if_neg hp]
    simp [keysOf]

theorem nodup_keysOf_addKeyIfAbsent (h : Hive) (p : String)
    (hn : (keysOf h).Nodup) : (keysOf (addKeyIfAbsent h p)).Nodup := by
  unfold addKeyIfAbsent
  by_cases hp : (findKey h p).isSome
  · rwa [if_pos hp]
  · rw [if_neg hp]
    have hpm : p ∉ keysOf h := fun hm => hp ((findKey_isSome_iff h p).mpr hm)
    have hk : keysOf (h ++ [(p, ([] : Values))]) = keysOf h ++ [p] := by
      simp [keysOf]
    rw [hk, List.nodup_append]
    refine ⟨hn, List.nodup_singleton p, ?_⟩
    intro a ha hb
    rw [List.mem_singleton] at hb
    subst hb
    exact hpm ha

theorem mem_keysOf_foldl_addKey (ps : List String) (h : Hive) (q : String) :
    q ∈ keysOf (ps.foldl addKeyIfAbsent h) ↔ q ∈ keysOf h ∨ q ∈ ps := by
  induction ps generalizing h with
  | nil => simp
  | cons p rest ih =>
    rw [List.foldl_cons, ih, mem_keysOf_addKeyIfAbsent]
    simp [or_assoc]

theorem nodup_keysOf_foldl_addKey (ps : List String) (h : Hive)
    (hn : (keysOf h).Nodup) : (keysOf (ps.foldl addKeyIfAbsent h)).Nodup := by
  induction ps generalizing h with
  | nil => exact hn
  | cons p rest ih => exact ih _ (nodup_keysOf_addKeyIfAbsent _ _ hn)

theorem mem_keysOf_createKey (h : Hive) (p q : String) :
    q ∈ keysOf (createKey h p) ↔ q ∈ keysOf h ∨ q ∈ pathAncestors p :=
  mem_keysOf_foldl_addKey _ _ _

theorem nodup_keysOf_createKey (h : Hive) (p : String)
    (hn : (keysOf h).Nodup) : (keysOf (createKey h p)).Nodup :=
  nodup_keysOf_foldl_addKey _ _ hn

/-! ### Path component arithmetic -/

theorem splitPath_ne_nil (l : List Char) : splitPath l ≠ [] := by
  cases l with
  | nil => simp [splitPath]
  | cons c rest =>
    rw [splitPath]
    by_cases hc : c = '\\'
    · simp [hc]
    · rw [if_neg hc]
      cases splitPath rest <;> simp

theorem splitPath_append_sep (r n : List Char) :
    splitPath (r ++ '\\' :: n) = splitPath r ++ splitPath n := by
  induction r with
  | nil => simp [splitPath]
  | cons c rest ih =>
    by_cases hc : c = '\\'
    · subst hc; simp [splitPath, ih]
    · rw [List.cons_append, splitPath, if_neg hc, ih, splitPath, if_neg hc]
      rcases hs : splitPath rest with _ | ⟨g, gs⟩
      · exact absurd hs (splitPath_ne_nil rest)
      · simp

theorem splitPath_no_sep (n : List Char) (h : '\\' ∉ n) : splitPath n = [n] := by
  induction n with
  | nil => rfl
  | cons c rest ih =>
    have hc : c ≠ '\\' := fun e => h (e ▸ List.mem_cons_self c rest)
    have hr : '\\' ∉ rest := fun hm => h (List.mem_cons_of_mem _ hm)
    rw [splitPath, if_neg hc, ih hr]

theorem joinParts_single (g : List Char) : joinParts [g] = g := rfl

theorem joinParts_cons (g g2 : List Char) (gs : List (List Char)) :
    joinParts (g :: g2 :: gs) = g ++ '\\' :: joinParts (g2 :: gs) := rfl

theorem joinParts_splitPath (l : List Char) : joinParts (splitPath l) = l := by
  induction l with
  | nil => rfl
  | cons c rest ih =>
    by_cases hc : c = '\\'
    · subst hc
      rw [splitPath, if_pos rfl]
      rcases hs : splitPath rest with _ | ⟨g, gs⟩
      · exact absurd hs (splitPath_ne_nil rest)
      · rw [hs] at ih
        rw [joinParts_cons]
        simpa using ih
    · rw [splitPath, if_neg hc]
      rcases hs : splitPath rest with _ | ⟨g, gs⟩
      · exact absurd hs (splitPath_ne_nil rest)
      · rw [hs] at ih
        show joinParts ((c :: g) :: gs) = c :: rest
        cases gs with
        | nil =>
          rw [joinParts_single]
          rw [joinParts_single] at ih
          rw [ih]
        | cons g2 gs2 =>
          rw [joinParts_cons] at ih ⊢
          simp only [List.cons_append]
          rw [ih]

theorem ancestorsFrom_append (ps qs : List (List Char)) (acc : List Char) :
    ancestorsFrom acc (ps ++ qs) =
      ancestorsFrom acc ps ++ ancestorsFrom (acc ++ partsAcc ps) qs := by
  induction ps generalizing acc with
  | nil => simp [ancestorsFrom, partsAcc]
  | cons g gs ih =>
    simp [ancestorsFrom, partsAcc, ih, List.append_assoc]

theorem partsAcc_eq (ps : List (List Char)) (hps : ps ≠ []) :
    partsAcc ps = joinParts ps ++ ['\\'] := by
  induction ps with
  | nil => exact absurd rfl hps
  | cons g gs ih =>
    cases gs with
    | nil => simp [partsAcc, joinParts_single]
    | cons g2 gs2 =>
      rw [partsAcc, ih (by simp), joinParts_cons]
      simp

theorem self_mem_ancestorsFrom (ps : List (List Char)) (acc : List Char)
    (hps : ps ≠ []) : acc ++ joinParts ps ∈ ancestorsFrom acc ps := by
  induction ps generalizing acc with
  | nil => exact absurd rfl hps
  | cons g gs ih =>
    cases gs with
    | nil => simp [joinParts_single, ancestorsFrom]
    | cons g2 gs2 =>
      rw [ancestorsFrom]
      refine List.mem_cons_of_mem _ ?_
      have hgoal : acc ++ joinParts (g :: g2 :: gs2) =
          (acc ++ g ++ ['\\']) ++ joinParts (g2 :: gs2) := by
        rw [joinParts_cons]; simp
      rw [hgoal]
      exact ih _ (by simp)

theorem mem_ancestorsFrom_pre (x : List Char) (ps : List (List Char))
    (acc : List Char) (hx : x ∈ ancestorsFrom acc ps) :
    x <+: acc ++ joinParts ps := by
  induction ps generalizing acc with
  | nil => simp [ancestorsFrom] at hx
  | cons g gs ih =>
    rw [ancestorsFrom] at hx
    rcases List.mem_cons.mp hx with rfl | hx
    · cases gs with
      | nil => rw [joinParts_single]
      | cons g2 gs2 =>
        rw [joinParts_cons, ← List.append_assoc]
        exact List.prefix_append _ _
    · cases gs with
      | nil => simp [ancestorsFrom] at hx
      | cons g2 gs2 =>
        have hpre := ih _ hx
        rw [joinParts_cons]
        simpa [List.append_assoc] using hpre

/-! ### String-level path lemmas -/

theorem sep_data : ("\\" : String).data = ['\\'] := rfl

theorem data_join (r n : String) :
    (r ++ "\\" ++ n).data = r.data ++ '\\' :: n.data := by
  rw [strData_append, strData_append, sep_data, List.append_assoc,
    List.singleton_append]

theorem mk_eq_iff_data (l : List Char) (s : String) :
    (⟨l⟩ : String) = s ↔ l = s.data := by
  constructor
  · intro h; rw [← h]
  · intro h; rw [h, mk_data]

theorem pathAncestors_snoc (r n : String) (hsep : '\\' ∉ n.data) :
    pathAncestors (r ++ "\\" ++ n) = pathAncestors r ++ [r ++ "\\" ++ n] := by
  unfold pathAncestors
  rw [data_join, splitPath_append_sep, splitPath_no_sep n.data hsep,
    ancestorsFrom_append, List.map_append]
  congr 1
  rw [show ancestorsFrom ([] ++ partsAcc (splitPath r.data)) [n.data] =
      [([] ++ partsAcc (splitPath r.data)) ++ n.data] from rfl]
  rw [List.nil_append, partsAcc_eq _ (splitPath_ne_nil r.data), joinParts_splitPath]
  rw [List.map_cons, List.map_nil]
  congr 1

theorem self_mem_pathAncestors (p : String) : p ∈ pathAncestors p := by
  unfold pathAncestors
  have h1 := self_mem_ancestorsFrom (splitPath p.data) [] (splitPath_ne_nil _)
  rw [List.nil_append, joinParts_splitPath] at h1
  exact List.mem_map.mpr ⟨p.data, h1, mk_data p⟩

theorem root_mem_pathAncestors (r n : String) (hsep : '\\' ∉ n.data) :
    r ∈ pathAncestors (r ++ "\\" ++ n) := by
  rw [pathAncestors_snoc r n hsep]
  exact List.mem_append_left _ (self_mem_pathAncestors r)

theorem mem_pathAncestors_pre (q p : String) (h : q ∈ pathAncestors p) :
    q.data <+: p.data := by
  unfold pathAncestors at h
  obtain ⟨x, hx, hxq⟩ := List.mem_map.mp h
  have hpre := mem_ancestorsFrom_pre x _ [] hx
  rw [List.nil_append, joinParts_splitPath] at hpre
  have hq : q.data = x := by rw [← hxq]
  rwa [hq]

theorem mem_pathAncestors_len (q p : String) (h : q ∈ pathAncestors p) :
    q.data.length ≤ p.data.length :=
  (mem_pathAncestors_pre q p h).length_le

theorem ne_of_data_length_lt (a b : String) (h : a.data.length < b.data.length) :
    a ≠ b := fun e => by subst e; exact lt_irrefl _ h

theorem length_join (r n : String) :
    (r ++ "\\" ++ n).data.length = r.data.length + 1 + n.data.length := by
  rw [data_join]
  simp [List.length_append]
  omega

theorem isStrictUnder_iff (parent q : String) :
    isStrictUnder parent q = true ↔ parent.data ++ ['\\'] <+: q.data := by
  unfold isStrictUnder
  exact List.isPrefixOf_iff_prefix

theorem strictUnder_length (parent q : String) (h : isStrictUnder parent q = true) :
    parent.data.length + 1 ≤ q.data.length := by
  have hl := ((isStrictUnder_iff parent q).mp h).length_le
  simpa using hl

theorem not_strictUnder_of_ancestor (p q full : String)
    (hanc : q ∈ pathAncestors full)
    (hlen : full.data.length ≤ p.data.length) :
    isStrictUnder p q = false := by
  by_contra hne
  have hb : isStrictUnder p q = true := by
    cases hx : isStrictUnder p q
    · exact absurd hx hne
    · rfl
  have h1 := strictUnder_length p q hb
  have h2 := mem_pathAncestors_len q full hanc
  omega

theorem directChildName_eq_some_iff (r q n : String) (hne : n.data ≠ [])
    (hsep : '\\' ∉ n.data) :
    directChildName r q = some n ↔ q = r ++ "\\" ++ n := by
  unfold directChildName
  constructor
  · intro h
    by_cases hp : (r.data ++ ['\\']).isPrefixOf q.data
    · rw [if_pos hp] at h
      obtain ⟨t, ht⟩ := List.isPrefixOf_iff_prefix.mp hp
      have hdrop : q.data.drop (r.data ++ ['\\']).length = t := by
        rw [← ht, List.drop_left]
      rw [hdrop] at h
      by_cases hc : t = [] ∨ '\\' ∈ t
      · rw [if_pos hc] at h
        exact absurd h (by simp)
      · rw [if_neg hc] at h
        have htn : t = n.data := by
          have := Option.some.inj h
          rw [← this]
        apply String.ext
        rw [data_join, ← ht, htn]
        simp
    · rw [if_neg hp] at h
      exact absurd h (by simp)
  · rintro rfl
    have hpre : (r.data ++ ['\\']).isPrefixOf (r ++ "\\" ++ n).data := by
      rw [data_join]
      exact List.isPrefixOf_iff_prefix.mpr ⟨n.data, by simp⟩
    rw [if_pos hpre]
    have hdrop : (r ++ "\\" ++ n).data.drop (r.data ++ ['\\']).length = n.data := by
      rw [data_join, show r.data ++ '\\' :: n.data = (r.data ++ ['\\']) ++ n.data by simp,
        List.drop_left]
    rw [hdrop, if_neg (by simp [hne, hsep]), mk_data]

theorem count_filterMap_child (l : List String) (r n : String) (hne : n.data ≠ [])
    (hsep : '\\' ∉ n.data) :
    (l.filterMap (directChildName r)).count n = l.count (r ++ "\\" ++ n) := by
  induction l with
  | nil => rfl
  | cons q rest ih =>
    rw [List.filterMap_cons]
    cases hq : directChildName r q with
    | none =>
      have hqe : q ≠ r ++ "\\" ++ n := by
        intro e
        have hsome := (directChildName_eq_some_iff r q n hne hsep).mpr e
        rw [hq] at hsome
        exact Option.noConfusion hsome
      simp [List.count_cons, hqe, ih]
    | some m =>
      by_cases hm : m = n
      · subst hm
        have hqe : q = r ++ "\\" ++ m :=
          (directChildName_eq_some_iff r q m hne hsep).mp hq
        simp [List.count_cons, hqe, ih]
      · have hqe : q ≠ r ++ "\\" ++ n := by
          intro e
          have hsome := (directChildName_eq_some_iff r q n hne hsep).mpr e
          rw [hq] at hsome
          exact hm (Option.some.inj hsome)
        simp [List.count_cons, hqe, hm, ih]

/-! ### The effect of a single entry write on the key set -/

theorem keysOf_addKeyIfAbsent_congr (h h' : Hive) (p : String)
    (e : keysOf h' = keysOf h) :
    keysOf (addKeyIfAbsent h' p) = keysOf (addKeyIfAbsent h p) := by
  unfold addKeyIfAbsent
  have b1 : (findKey h' p).isSome = true ↔ (findKey h p).isSome = true := by
    rw [findKey_isSome_iff, findKey_isSome_iff, e]
  have hiff : (findKey h' p).isSome = (findKey h p).isSome := by
    cases hb : (findKey h p).isSome
    · cases hb' : (findKey h' p).isSome
      · rfl
      · have := b1.mp hb'
        rw [hb] at this
        exact this.symm
    · exact b1.mpr hb
  rw [hiff]
  by_cases hb : (findKey h p).isSome = true
  · rw [if_pos hb, if_pos hb]
    exact e
  · rw [if_neg hb, if_neg hb]
    simp [keysOf] at e ⊢
    exact e

theorem keysOf_foldl_addKey_congr (ps : List String) (h h' : Hive)
    (e : keysOf h' = keysOf h) :
    keysOf (ps.foldl addKeyIfAbsent h') = keysOf (ps.foldl addKeyIfAbsent h) := by
  induction ps generalizing h h' with
  | nil => exact e
  | cons p rest ih => exact ih _ _ (keysOf_addKeyIfAbsent_congr _ _ p e)

theorem keysOf_createKey_congr (h h' : Hive) (p : String)
    (e : keysOf h' = keysOf h) :
    keysOf (createKey h' p) = keysOf (createKey h p) :=
  keysOf_foldl_addKey_congr _ _ _ e

theorem keysOf_write_entry (reg : Registry) (root : String) (e : MenuEntry)
    (ph : String) (icon : Option String) :
    keysOf (_write_entry false reg root e ph icon).hkcr =
      keysOf (createKey (createKey reg.hkcr (root ++ "\\" ++ e.key_name))
        (root ++ "\\" ++ e.key_name ++ "\\command")) := by
  unfold _write_entry
  simp only [Bool.false_eq_true, if_false]
  rw [keysOf_setValue]
  apply keysOf_createKey_congr
  by_cases hi : pyTruthy icon
  · rw [if_pos hi, keysOf_setValue, keysOf_setValue]
  · rw [if_neg hi, keysOf_setValue]

theorem mem_keysOf_write_entry (reg : Registry) (root : String) (e : MenuEntry)
    (ph : String) (icon : Option String) (q : String) :
    q ∈ keysOf (_write_entry false reg root e ph icon).hkcr ↔
      q ∈ keysOf reg.hkcr ∨
      q ∈ pathAncestors (root ++ "\\" ++ e.key_name) ∨
      q ∈ pathAncestors (root ++ "\\" ++ e.key_name ++ "\\command") := by
  rw [keysOf_write_entry, mem_keysOf_createKey, mem_keysOf_createKey, or_assoc]

theorem mem_keysOf_write_entry_mono (reg : Registry) (root : String) (e : MenuEntry)
    (ph : String) (icon : Option String) (q : String)
    (hq : q ∈ keysOf reg.hkcr) :
    q ∈ keysOf (_write_entry false reg root e ph icon).hkcr :=
  (mem_keysOf_write_entry reg root e ph icon q).mpr (Or.inl hq)

theorem nodup_keysOf_write_entry (reg : Registry) (root : String) (e : MenuEntry)
    (ph : String) (icon : Option String) (hn : (keysOf reg.hkcr).Nodup) :
    (keysOf (_write_entry false reg root e ph icon).hkcr).Nodup := by
  rw [keysOf_write_entry]
  exact nodup_keysOf_createKey _ _ (nodup_keysOf_createKey _ _ hn)

/-! ### The effect of the scope loops of add_entry -/

theorem mem_keysOf_foldl_extStep_mono (exts : List String) (e : MenuEntry)
    (icon : Option String) (reg : Registry) (q : String)
    (hq : q ∈ keysOf reg.hkcr) :
    q ∈ keysOf (exts.foldl (extStep false e icon) reg).hkcr := by
  induction exts generalizing reg with
  | nil => exact hq
  | cons x rest ih =>
    exact ih _ (mem_keysOf_write_entry_mono _ _ _ _ _ _ hq)

theorem nodup_keysOf_foldl_extStep (exts : List String) (e : MenuEntry)
    (icon : Option String) (reg : Registry)
    (hn : (keysOf reg.hkcr).Nodup) :
    (keysOf (exts.foldl (extStep false e icon) reg).hkcr).Nodup := by
  induction exts generalizing reg with
  | nil => exact hn
  | cons x rest ih =>
    exact ih _ (nodup_keysOf_write_entry _ _ _ _ _ hn)

theorem mem_keysOf_scopeStep_mono (s : TargetScope) (e : MenuEntry)
    (icon : Option String) (reg : Registry) (q : String)
    (hq : q ∈ keysOf reg.hkcr) :
    q ∈ keysOf (scopeStep false e icon reg s).hkcr := by
  cases s with
  | EXTENSION => exact mem_keysOf_foldl_extStep_mono _ _ _ _ _ hq
  | ALL_FILES => exact mem_keysOf_write_entry_mono _ _ _ _ _ _ hq
  | DIRECTORY => exact mem_keysOf_write_entry_mono _ _ _ _ _ _ hq
  | DIR_BACKGROUND => exact mem_keysOf_write_entry_mono _ _ _ _ _ _ hq

theorem nodup_keysOf_scopeStep (s : TargetScope) (e : MenuEntry)
    (icon : Option String) (reg : Registry)
    (hn : (keysOf reg.hkcr).Nodup) :
    (keysOf (scopeStep false e icon reg s).hkcr).Nodup := by
  cases s with
  | EXTENSION => exact nodup_keysOf_foldl_extStep _ _ _ _ hn
  | ALL_FILES => exact nodup_keysOf_write_entry _ _ _ _ _ hn
  | DIRECTORY => exact nodup_keysOf_write_entry _ _ _ _ _ hn
  | DIR_BACKGROUND => exact nodup_keysOf_write_entry _ _ _ _ _ hn

theorem mem_keysOf_foldl_scopeStep_mono (ss : List TargetScope) (e : MenuEntry)
    (icon : Option String) (reg : Registry) (q : String)
    (hq : q ∈ keysOf reg.hkcr) :
    q ∈ keysOf (ss.foldl (scopeStep false e icon) reg).hkcr := by
  induction ss generalizing reg with
  | nil => exact hq
  | cons s rest ih => exact ih _ (mem_keysOf_scopeStep_mono _ _ _ _ _ hq)

theorem nodup_keysOf_foldl_scopeStep (ss : List TargetScope) (e : MenuEntry)
    (icon : Option String) (reg : Registry)
    (hn : (keysOf reg.hkcr).Nodup) :
    (keysOf (ss.foldl (scopeStep false e icon) reg).hkcr).Nodup := by
  induction ss generalizing reg with
  | nil => exact hn
  | cons s rest ih => exact ih _ (nodup_keysOf_scopeStep _ _ _ _ hn)

theorem nodup_keysOf_add_writes (e : MenuEntry) (icon : Option String)
    (reg : Registry) (hn : (keysOf reg.hkcr).Nodup) :
    (keysOf (add_writes false e icon reg).hkcr).Nodup :=
  nodup_keysOf_foldl_scopeStep _ _ _ _ hn

/-- After a non-dry `add_writes`, every ancestor of the command key of a
requested non-EXTENSION scope is present. -/
theorem mem_keysOf_add_writes_of_scope (e : MenuEntry) (icon : Option String)
    (reg : Registry) (s : TargetScope) (root : String) (q : String)
    (hs : s ∈ e.scopes) (hr : _SCOPE_ROOTS s = some root)
    (hq : q ∈ pathAncestors (root ++ "\\" ++ e.key_name ++ "\\command")) :
    q ∈ keysOf (add_writes false e icon reg).hkcr := by
  unfold add_writes
  obtain ⟨l1, l2, hsplit⟩ := List.append_of_mem hs
  rw [hsplit, List.foldl_append, List.foldl_cons]
  apply mem_keysOf_foldl_scopeStep_mono
  have hstep : scopeStep false e icon (l1.foldl (scopeStep false e icon) reg) s =
      _write_entry false (l1.foldl (scopeStep false e icon) reg) root e
        (_SCOPE_PLACEHOLDER s) icon := by
    cases s with
    | EXTENSION => simp [_SCOPE_ROOTS] at hr
    | ALL_FILES => simp [scopeStep, hr]
    | DIRECTORY => simp [scopeStep, hr]
    | DIR_BACKGROUND => simp [scopeStep, hr]
  rw [hstep, mem_keysOf_write_entry]
  exact Or.inr (Or.inr hq)

/-- After a non-dry `add_writes` with the EXTENSION scope requested, every
ancestor of the command key of each extension is present. -/
theorem mem_keysOf_add_writes_of_ext (e : MenuEntry) (icon : Option String)
    (reg : Registry) (ext : String) (q : String)
    (hs : TargetScope.EXTENSION ∈ e.scopes) (hx : ext ∈ e.extensions)
    (hq : q ∈ pathAncestors ((ext ++ "\\shell") ++ "\\" ++ e.key_name ++ "\\command")) :
    q ∈ keysOf (add_writes false e icon reg).hkcr := by
  unfold add_writes
  obtain ⟨l1, l2, hsplit⟩ := List.append_of_mem hs
  rw [hsplit, List.foldl_append, List.foldl_cons]
  apply mem_keysOf_foldl_scopeStep_mono
  show q ∈ keysOf (scopeStep false e icon _ TargetScope.EXTENSION).hkcr
  rw [scopeStep]
  obtain ⟨m1, m2, hxsplit⟩ := List.append_of_mem hx
  rw [hxsplit, List.foldl_append, List.foldl_cons]
  apply mem_keysOf_foldl_extStep_mono
  rw [extStep, mem_keysOf_write_entry]
  exact Or.inr (Or.inr hq)

/-! ### Dry-run is the identity on the registry -/

theorem write_entry_dry (reg : Registry) (root : String) (e : MenuEntry)
    (ph : String) (icon : Option String) :
    _write_entry true reg root e ph icon = reg := by
  unfold _write_entry
  simp

theorem foldl_extStep_dry (exts : List String) (e : MenuEntry)
    (icon : Option String) (reg : Registry) :
    exts.foldl (extStep true e icon) reg = reg := by
  induction exts generalizing reg with
  | nil => rfl
  | cons x rest ih =>
    rw [List.foldl_cons, extStep, write_entry_dry]
    exact ih reg

theorem scopeStep_dry (s : TargetScope) (e : MenuEntry) (icon : Option String)
    (reg : Registry) : scopeStep true e icon reg s = reg := by
  cases s with
  | EXTENSION => exact foldl_extStep_dry _ _ _ _
  | ALL_FILES => simp [scopeStep, _SCOPE_ROOTS, write_entry_dry]
  | DIRECTORY => simp [scopeStep, _SCOPE_ROOTS, write_entry_dry]
  | DIR_BACKGROUND => simp [scopeStep, _SCOPE_ROOTS, write_entry_dry]

theorem add_writes_dry (e : MenuEntry) (icon : Option String) (reg : Registry) :
    add_writes true e icon reg = reg := by
  unfold add_writes
  induction e.scopes generalizing reg with
  | nil => rfl
  | cons s rest ih =>
    rw [List.foldl_cons, scopeStep_dry]
    exact ih reg

theorem delete_entry_dry (reg : Registry) (root key_name : String) :
    _delete_entry true reg root key_name = .ok reg := by
  unfold _delete_entry
  simp

theorem foldlM_extDel_dry (exts : List String) (kn : String) (reg : Registry) :
    exts.foldlM (extDel true kn) reg = .ok reg := by
  induction exts generalizing reg with
  | nil => rfl
  | cons x rest ih =>
    rw [List.foldlM_cons, extDel, delete_entry_dry]
    exact ih reg

theorem scopeDel_dry (s : TargetScope) (e : MenuEntry) (reg : Registry) :
    scopeDel true e reg s = .ok reg := by
  cases s with
  | EXTENSION => exact foldlM_extDel_dry _ _ _
  | ALL_FILES => simp [scopeDel, _SCOPE_ROOTS, delete_entry_dry]
  | DIRECTORY => simp [scopeDel, _SCOPE_ROOTS, delete_entry_dry]
  | DIR_BACKGROUND => simp [scopeDel, _SCOPE_ROOTS, delete_entry_dry]

theorem remove_deletes_dry (e : MenuEntry) (reg : Registry) :
    remove_deletes true e reg = .ok reg := by
  unfold remove_deletes
  induction e.scopes generalizing reg with
  | nil => rfl
  | cons s rest ih =>
    rw [List.foldlM_cons, scopeDel_dry]
    exact ih reg

/-! ### Unfolding add_entry and remove_entry -/

theorem add_entry_ok (dry : Bool) (env : Env) (entry : MenuEntry) (reg : Registry)
    (i : Option String) (ha : env.isAdmin = true)
    (hexe : ∃ x, validate_exe_path env entry.exe_path = .ok x)
    (hicon : validate_icon_path env entry.icon = .ok i) :
    add_entry dry env entry reg = .ok (add_writes dry entry i reg) := by
  obtain ⟨x, hx⟩ := hexe
  simp only [add_entry, require_admin, is_admin, ha, if_pos, hx, hicon]
  rfl

theorem add_entry_not_admin (dry : Bool) (env : Env) (entry : MenuEntry)
    (reg : Registry) (ha : env.isAdmin = false) :
    add_entry dry env entry reg = .error .permissionError := by
  simp only [add_entry, require_admin, is_admin, ha, Bool.false_eq_true, if_false]
  rfl

theorem remove_entry_eq (dry : Bool) (env : Env) (entry : MenuEntry)
    (reg : Registry) (ha : env.isAdmin = true) :
    remove_entry dry env entry reg = remove_deletes dry entry reg := by
  simp only [remove_entry, require_admin, is_admin, ha, if_pos]
  rfl

theorem remove_entry_not_admin (dry : Bool) (env : Env) (entry : MenuEntry)
    (reg : Registry) (ha : env.isAdmin = false) :
    remove_entry dry env entry reg = .error .permissionError := by
  simp only [remove_entry, require_admin, is_admin, ha, Bool.false_eq_true, if_false]
  rfl

/-! ### Deletion lemmas -/

theorem keysOf_filter_ne (h : Hive) (p : String) :
    keysOf (h.filter fun kv => kv.1 ≠ p) = (keysOf h).filter (fun q => q ≠ p) := by
  unfold keysOf
  rw [List.filter_map]
  rfl

theorem mem_keysOf_filter_ne (h : Hive) (p q : String) :
    q ∈ keysOf (h.filter fun kv => kv.1 ≠ p) ↔ q ∈ keysOf h ∧ q ≠ p := by
  rw [keysOf_filter_ne, List.mem_filter]
  simp

theorem nodup_keysOf_filter_ne (h : Hive) (p : String)
    (hn : (keysOf h).Nodup) :
    (keysOf (h.filter fun kv => kv.1 ≠ p)).Nodup := by
  rw [keysOf_filter_ne]
  exact hn.filter _

theorem deleteKey_not_mem (h : Hive) (p : String) (hm : p ∉ keysOf h) :
    deleteKey h p = .error .fileNotFoundError := by
  have hc : (findKey h p).isNone = true := by
    rw [Option.isNone_iff_eq_none, findKey_eq_none_iff]
    exact hm
  unfold deleteKey
  rw [if_pos hc]

theorem deleteKey_ok (h : Hive) (p : String) (hm : p ∈ keysOf h)
    (hch : ∀ q ∈ keysOf h, isStrictUnder p q = false) :
    deleteKey h p = .ok (h.filter fun kv => kv.1 ≠ p) := by
  have h1 : (findKey h p).isNone = false := by
    have hs := (findKey_isSome_iff h p).mpr hm
    cases hf : findKey h p
    · rw [hf] at hs; simp at hs
    · rfl
  have h2 : hasChildKey h p = false := by
    unfold hasChildKey
    rw [List.any_eq_false]
    intro q hq
    rw [hch q hq]
    simp
  unfold deleteKey
  rw [h1, h2]
  simp

theorem delete_entry_ok_of_absent (reg : Registry) (root key_name : String)
    (hk : (root ++ "\\" ++ key_name) ∉ keysOf reg.hkcr)
    (hc : (root ++ "\\" ++ key_name ++ "\\command") ∉ keysOf reg.hkcr) :
    _delete_entry false reg root key_name = .ok reg := by
  simp [_delete_entry, deleteKeySkipMissing, deleteKey_not_mem _ _ hc,
    deleteKey_not_mem _ _ hk]

/-! ### Value-level lemmas -/

theorem findKey_createKey_isSome (h : Hive) (p : String) :
    (findKey (createKey h p) p).isSome = true := by
  rw [findKey_isSome_iff, mem_keysOf_createKey]
  exact Or.inr (self_mem_pathAncestors p)

theorem queryValue_setValue_self (h : Hive) (p name data : String)
    (hm : (findKey h p).isSome = true) :
    queryValue (setValue h p name data) p name = .ok data := by
  unfold queryValue
  rw [findKey_setValue_self]
  cases hf : findKey h p with
  | none => rw [hf] at hm; simp at hm
  | some vs => simp [lookup_setVal]

theorem queryValue_absent (h : Hive) (p name : String)
    (hm : findKey h p = none) :
    queryValue h p name = .error .fileNotFoundError := by
  unfold queryValue
  rw [hm]

/-! ### Command subkey path arithmetic -/

theorem cmd_append (p : String) : p ++ "\\command" = p ++ "\\" ++ "command" := by
  apply String.ext
  rw [strData_append, data_join]

theorem cmd_length (p : String) :
    (p ++ "\\command").data.length = p.data.length + 8 := by
  rw [cmd_append, length_join, show ("command" : String).data.length = 7 from rfl]

theorem key_mem_anc_cmd (p : String) : p ∈ pathAncestors (p ++ "\\command") := by
  rw [cmd_append, pathAncestors_snoc _ _ (by decide)]
  exact List.mem_append_left _ (self_mem_pathAncestors p)

theorem anc_cmd_eq (p : String) :
    pathAncestors (p ++ "\\command") = pathAncestors p ++ [p ++ "\\command"] := by
  rw [cmd_append, pathAncestors_snoc _ _ (by decide), ← cmd_append]

theorem root_mem_anc_cmd (root n : String) (hn : '\\' ∉ n.data) :
    root ∈ pathAncestors (root ++ "\\" ++ n ++ "\\command") := by
  rw [anc_cmd_eq]
  apply List.mem_append_left
  rw [pathAncestors_snoc _ _ hn]
  exact List.mem_append_left _ (self_mem_pathAncestors root)

theorem strictUnder_cmd_trans (key q : String)
    (h : isStrictUnder (key ++ "\\command") q = true) :
    isStrictUnder key q = true := by
  rw [isStrictUnder_iff] at h ⊢
  have h1 : key.data ++ ['\\'] <+: (key ++ "\\command").data := by
    rw [cmd_append, data_join]
    exact ⟨"command".data, by simp⟩
  have h2 : (key ++ "\\command").data <+: (key ++ "\\command").data ++ ['\\'] :=
    List.prefix_append _ _
  exact h1.trans (h2.trans h)

/-! ### Inversions of deleteKey and the skip wrapper -/

theorem deleteKey_fnf_inv (h : Hive) (p : String)
    (hd : deleteKey h p = .error .fileNotFoundError) : findKey h p = none := by
  unfold deleteKey at hd
  by_cases hc : (findKey h p).isNone = true
  · rwa [Option.isNone_iff_eq_none] at hc
  · rw [if_neg hc] at hd
    by_cases hch : hasChildKey h p = true
    · rw [if_pos hch] at hd; exact absurd hd (by simp)
    · rw [if_neg hch] at hd; exact absurd hd (by simp)

theorem deleteKey_ok_inv (h : Hive) (p : String) (h' : Hive)
    (hd : deleteKey h p = .ok h') : h' = h.filter fun kv => kv.1 ≠ p := by
  unfold deleteKey at hd
  by_cases hc : (findKey h p).isNone = true
  · rw [if_pos hc] at hd; exact absurd hd (by simp)
  · rw [if_neg hc] at hd
    by_cases hch : hasChildKey h p = true
    · rw [if_pos hch] at hd; exact absurd hd (by simp)
    · rw [if_neg hch] at hd
      exact (Except.ok.inj hd).symm

theorem deleteKeySkipMissing_not_mem (h : Hive) (p : String)
    (hm : p ∉ keysOf h) : deleteKeySkipMissing h p = .ok h := by
  unfold deleteKeySkipMissing
  rw [deleteKey_not_mem h p hm]

theorem deleteKeySkipMissing_ok (h : Hive) (p : String) (hm : p ∈ keysOf h)
    (hch : ∀ q ∈ keysOf h, isStrictUnder p q = false) :
    deleteKeySkipMissing h p = .ok (h.filter fun kv => kv.1 ≠ p) := by
  unfold deleteKeySkipMissing
  rw [deleteKey_ok h p hm hch]

theorem delete_entry_eq (reg : Registry) (root kn : String) :
    _delete_entry false reg root kn =
      match deleteKeySkipMissing reg.hkcr (root ++ "\\" ++ kn ++ "\\command") with
      | .error e => .error e
      | .ok h1 =>
          match deleteKeySkipMissing h1 (root ++ "\\" ++ kn) with
          | .error e => .error e
          | .ok h2 => .ok { reg with hkcr := h2 } := by
  unfold _delete_entry
  simp only [Bool.false_eq_true, if_false]

theorem delete_entry_ok_present (reg : Registry) (root kn : String)
    (hcm : (root ++ "\\" ++ kn ++ "\\command") ∈ keysOf reg.hkcr)
    (hcc : ∀ q ∈ keysOf reg.hkcr,
      isStrictUnder (root ++ "\\" ++ kn ++ "\\command") q = false)
    (hkm : (root ++ "\\" ++ kn) ∈
      keysOf (reg.hkcr.filter fun kv => kv.1 ≠ root ++ "\\" ++ kn ++ "\\command"))
    (hkc : ∀ q ∈ keysOf
        (reg.hkcr.filter fun kv => kv.1 ≠ root ++ "\\" ++ kn ++ "\\command"),
      isStrictUnder (root ++ "\\" ++ kn) q = false) :
    _delete_entry false reg root kn =
      .ok { reg with hkcr :=
        ((reg.hkcr.filter fun kv => kv.1 ≠ root ++ "\\" ++ kn ++ "\\command").filter
          (fun kv => kv.1 ≠ root ++ "\\" ++ kn)) } := by
  rw [delete_entry_eq, deleteKeySkipMissing_ok _ _ hcm hcc]
  show (match deleteKeySkipMissing
      (reg.hkcr.filter fun kv => kv.1 ≠ root ++ "\\" ++ kn ++ "\\command")
      (root ++ "\\" ++ kn) with
    | .error e => (.error e : Except PyErr Registry)
    | .ok h2 => .ok { reg with hkcr := h2 }) = _
  rw [deleteKeySkipMissing_ok _ _ hkm hkc]

/-! ### The add loop succeeds and iterates -/

theorem add_entry_exe_err (dry : Bool) (env : Env) (entry : MenuEntry)
    (reg : Registry) (e : PyErr) (ha : env.isAdmin = true)
    (hx : validate_exe_path env entry.exe_path = .error e) :
    add_entry dry env entry reg = .error e := by
  simp only [add_entry, require_admin, is_admin, ha, if_pos, hx]
  rfl

theorem add_entry_icon_err (dry : Bool) (env : Env) (entry : MenuEntry)
    (reg : Registry) (x : String) (e : PyErr) (ha : env.isAdmin = true)
    (hx : validate_exe_path env entry.exe_path = .ok x)
    (hi : validate_icon_path env entry.icon = .error e) :
    add_entry dry env entry reg = .error e := by
  simp only [add_entry, require_admin, is_admin, ha, if_pos, hx, hi]
  rfl

theorem addTimes_succ (dry : Bool) (env : Env) (entry : MenuEntry) (n : Nat)
    (reg : Registry) :
    addTimes dry env entry (n + 1) reg =
      match add_entry dry env entry reg with
      | .ok reg' => addTimes dry env entry n reg'
      | .error e => .error e := by
  rw [addTimes]
  cases add_entry dry env entry reg <;> rfl

theorem addTimes_final (env : Env) (entry : MenuEntry) (i : Option String)
    (ha : env.isAdmin = true)
    (hexe : ∃ x, validate_exe_path env entry.exe_path = .ok x)
    (hi : validate_icon_path env entry.icon = .ok i) (n : Nat) :
    ∀ reg : Registry, (keysOf reg.hkcr).Nodup →
      ∃ reg0, (keysOf reg0.hkcr).Nodup ∧
        addTimes false env entry (n + 1) reg = .ok (add_writes false entry i reg0) := by
  induction n with
  | zero =>
    intro reg hnd
    refine ⟨reg, hnd, ?_⟩
    rw [addTimes_succ, add_entry_ok false env entry reg i ha hexe hi]
    rfl
  | succ k ih =>
    intro reg hnd
    obtain ⟨reg0, hnd0, heq⟩ :=
      ih (add_writes false entry i reg) (nodup_keysOf_add_writes _ _ _ hnd)
    refine ⟨reg0, hnd0, ?_⟩
    rw [addTimes_succ, add_entry_ok false env entry reg i ha hexe hi]
    exact heq

/-! ### list_entries on a present root -/

theorem list_entries_eq (reg : Registry) (scope : TargetScope) (root : String)
    (hr : _SCOPE_ROOTS scope = some root) (hfind : findKey reg.hkcr root ≠ none) :
    list_entries reg scope none = .ok (subkeysOf reg.hkcr root) := by
  have hs : (findKey reg.hkcr root).isSome = true := by
    cases hf : findKey reg.hkcr root
    · exact absurd hf hfind
    · rfl
  cases scope with
  | EXTENSION => simp [_SCOPE_ROOTS] at hr
  | ALL_FILES =>
    obtain rfl := Option.some.inj hr
    simp [list_entries, _SCOPE_ROOTS, hs]
  | DIRECTORY =>
    obtain rfl := Option.some.inj hr
    simp [list_entries, _SCOPE_ROOTS, hs]
  | DIR_BACKGROUND =>
    obtain rfl := Option.some.inj hr
    simp [list_entries, _SCOPE_ROOTS, hs]

/-- The two key facts about the hive after a successful non-dry add, for
a requested non-EXTENSION scope: the scope root key exists, and the
subkeys under it list `key_name` exactly once. -/
theorem add_writes_post (entry : MenuEntry) (i : Option String) (reg : Registry)
    (scope : TargetScope) (root : String)
    (hkn1 : entry.key_name.data ≠ []) (hkn2 : '\\' ∉ entry.key_name.data)
    (hs : scope ∈ entry.scopes) (hr : _SCOPE_ROOTS scope = some root)
    (hnd : (keysOf reg.hkcr).Nodup) :
    findKey (add_writes false entry i reg).hkcr root ≠ none ∧
    (subkeysOf (add_writes false entry i reg).hkcr root).count entry.key_name = 1 := by
  have hroot : root ∈ keysOf (add_writes false entry i reg).hkcr :=
    mem_keysOf_add_writes_of_scope entry i reg scope root root hs hr
      (root_mem_anc_cmd root entry.key_name hkn2)
  have hkey : (root ++ "\\" ++ entry.key_name) ∈
      keysOf (add_writes false entry i reg).hkcr :=
    mem_keysOf_add_writes_of_scope entry i reg scope root _ hs hr
      (key_mem_anc_cmd _)
  have hnd' : (keysOf (add_writes false entry i reg).hkcr).Nodup :=
    nodup_keysOf_add_writes _ _ _ hnd
  constructor
  · rw [Ne, findKey_eq_none_iff]
    simpa using hroot
  · unfold subkeysOf
    rw [count_filterMap_child _ _ _ hkn1 hkn2]
    exact List.count_eq_one_of_mem hnd' hkey

/-! ### The remove loop on a single-scope descriptor -/

theorem remove_deletes_single (entry : MenuEntry) (reg : Registry)
    (scope : TargetScope) (root : String)
    (hscopes : entry.scopes = [scope]) (hsx : scope ≠ .EXTENSION)
    (hr : _SCOPE_ROOTS scope = some root) :
    remove_deletes false entry reg = _delete_entry false reg root entry.key_name := by
  unfold remove_deletes
  rw [hscopes, List.foldlM_cons]
  have hsd : scopeDel false entry reg scope =
      _delete_entry false reg root entry.key_name := by
    cases scope with
    | EXTENSION => exact absurd rfl hsx
    | ALL_FILES =>
      obtain rfl := Option.some.inj hr
      simp [scopeDel, _SCOPE_ROOTS]
    | DIRECTORY =>
      obtain rfl := Option.some.inj hr
      simp [scopeDel, _SCOPE_ROOTS]
    | DIR_BACKGROUND =>
      obtain rfl := Option.some.inj hr
      simp [scopeDel, _SCOPE_ROOTS]
  rw [hsd]
  cases hdel : _delete_entry false reg root entry.key_name <;>
    simp [hdel, List.foldlM_nil]

/-- The Windows 11 classic-menu flag reads back as forced immediately
after a non-dry `force_classic_menu`, from any starting state. -/
theorem force_classic_true (r : Registry) :
    is_classic_menu_forced (force_classic_menu false r) = true := by
  unfold force_classic_menu is_classic_menu_forced
  simp only [Bool.false_eq_true, if_false]
  rw [queryValue_setValue_self _ _ _ _ (findKey_createKey_isSome _ _)]
  rfl

theorem add_entry_ok_inv (dry : Bool) (env : Env) (entry : MenuEntry)
    (reg reg' : Registry) (h : add_entry dry env entry reg = .ok reg') :
    env.isAdmin = true ∧ ∃ i, validate_icon_path env entry.icon = .ok i ∧
      reg' = add_writes dry entry i reg := by
  cases ha : env.isAdmin
  · rw [add_entry_not_admin _ _ _ _ ha] at h
    exact absurd h (by simp)
  · refine ⟨rfl, ?_⟩
    cases hx : validate_exe_path env entry.exe_path with
    | error e =>
      rw [add_entry_exe_err _ _ _ _ _ ha hx] at h
      exact absurd h (by simp)
    | ok x =>
      cases hi : validate_icon_path env entry.icon with
      | error e =>
        rw [add_entry_icon_err _ _ _ _ _ _ ha hx hi] at h
        exact absurd h (by simp)
      | ok i =>
        rw [add_entry_ok dry env entry reg i ha ⟨x, hx⟩ hi] at h
        exact ⟨i, rfl, (Except.ok.inj h).symm⟩

theorem add_writes_single (entry : MenuEntry) (i : Option String) (reg : Registry)
    (scope : TargetScope) (root : String)
    (hscopes : entry.scopes = [scope]) (hsx : scope ≠ .EXTENSION)
    (hr : _SCOPE_ROOTS scope = some root) :
    add_writes false entry i reg =
      _write_entry false reg root entry (_SCOPE_PLACEHOLDER scope) i := by
  unfold add_writes
  rw [hscopes, List.foldl_cons, List.foldl_nil]
  cases scope with
  | EXTENSION => exact absurd rfl hsx
  | ALL_FILES =>
    obtain rfl := Option.some.inj hr
    simp [scopeStep, _SCOPE_ROOTS]
  | DIRECTORY =>
    obtain rfl := Option.some.inj hr
    simp [scopeStep, _SCOPE_ROOTS]
  | DIR_BACKGROUND =>
    obtain rfl := Option.some.inj hr
    simp [scopeStep, _SCOPE_ROOTS]

/-! ### The claims -/

/-- Claim C1: for every applicability scope the Entry Store resolves
exactly the registry subtree path and placeholder token of the spec's
table: All files maps to `*\shell` with `%1`, Directory to
`Directory\shell` with `%V`, Directory background to
`Directory\Background\shell` with `%V`, Extension (absent from the static
table) dynamically to `<ext>\shell`, one path per extension, with `%1`;
a successful non-dry Add writes the entry key under exactly those
roots. -/
theorem C1_scope_resolution (env : Env) (entry : MenuEntry) (reg reg' : Registry) :
    (_SCOPE_ROOTS .ALL_FILES = some "*\\shell" ∧
     _SCOPE_ROOTS .DIRECTORY = some "Directory\\shell" ∧
     _SCOPE_ROOTS .DIR_BACKGROUND = some "Directory\\Background\\shell" ∧
     _SCOPE_ROOTS .EXTENSION = none) ∧
    (_SCOPE_PLACEHOLDER .ALL_FILES = "%1" ∧
     _SCOPE_PLACEHOLDER .DIRECTORY = "%V" ∧
     _SCOPE_PLACEHOLDER .DIR_BACKGROUND = "%V" ∧
     _SCOPE_PLACEHOLDER .EXTENSION = "%1") ∧
    (add_entry false env entry reg = .ok reg' →
      ∀ scope ∈ entry.scopes,
        (∀ root, _SCOPE_ROOTS scope = some root →
          (root ++ "\\" ++ entry.key_name) ∈ keysOf reg'.hkcr) ∧
        (scope = .EXTENSION → ∀ ext ∈ entry.extensions,
          ((ext ++ "\\shell") ++ "\\" ++ entry.key_name) ∈ keysOf reg'.hkcr)) := by
  refine ⟨⟨rfl, rfl, rfl, rfl⟩, ⟨rfl, rfl, rfl, rfl⟩, ?_⟩
  intro hadd scope hs
  obtain ⟨-, i, hi, hreg'⟩ := add_entry_ok_inv false env entry reg reg' hadd
  subst hreg'
  constructor
  · intro root hr
    exact mem_keysOf_add_writes_of_scope entry i reg scope root _ hs hr
      (key_mem_anc_cmd _)
  · rintro rfl ext hx
    exact mem_keysOf_add_writes_of_ext entry i reg ext _ hs hx
      (key_mem_anc_cmd _)

/-- Witness for C1: a concrete successful add with the all-files and
extension scopes creates the keys under the spec's roots. -/
theorem C1_scope_resolution_witness :
    ("*\\shell" ++ "\\" ++ sampleEntryExt.key_name) ∈
      keysOf (add_writes false sampleEntryExt none emptyRegistry).hkcr ∧
    ((".txt" ++ "\\shell") ++ "\\" ++ sampleEntryExt.key_name) ∈
      keysOf (add_writes false sampleEntryExt none emptyRegistry).hkcr := by
  have h := (C1_scope_resolution envAdmin sampleEntryExt emptyRegistry
      (add_writes false sampleEntryExt none emptyRegistry)).2.2 (by decide)
  exact ⟨(h TargetScope.ALL_FILES (by decide)).1 "*\\shell" rfl,
    (h TargetScope.EXTENSION (by decide)).2 rfl ".txt" (by decide)⟩

/-- Claim C2 is false as stated: `force_classic_menu` performs no
elevation check, so with the elevation check reporting false the call
raises nothing and still mutates the registry (it sets the Windows 11
flag key under HKEY_CURRENT_USER). -/
theorem C2_elevation_counterexample :
    is_admin envNotAdmin = false ∧
    force_classic_menu false emptyRegistry ≠ emptyRegistry ∧
    is_classic_menu_forced (force_classic_menu false emptyRegistry) = true := by
  refine ⟨rfl, by decide, by decide⟩

/-- Claim C2 (amended): Add and Remove raise an elevation error before
any registry access when the elevation check reports false (the error
return carries no mutated state); ForceClassic and RestoreModern perform
no elevation check — ForceClassic sets the flag unconditionally from any
state. -/
theorem C2_elevation_guard (dry : Bool) (env : Env) (entry : MenuEntry)
    (reg : Registry) (ha : env.isAdmin = false) :
    add_entry dry env entry reg = .error .permissionError ∧
    remove_entry dry env entry reg = .error .permissionError ∧
    (∀ r : Registry, is_classic_menu_forced (force_classic_menu false r) = true) :=
  ⟨add_entry_not_admin dry env entry reg ha,
   remove_entry_not_admin dry env entry reg ha,
   force_classic_true⟩

/-- Witness for the amended C2 at a concrete non-elevated environment. -/
theorem C2_elevation_guard_witness :
    add_entry false envNotAdmin sampleEntry emptyRegistry =
      .error .permissionError ∧
    remove_entry false envNotAdmin sampleEntry emptyRegistry =
      .error .permissionError ∧
    (∀ r : Registry, is_classic_menu_forced (force_classic_menu false r) = true) :=
  C2_elevation_guard false envNotAdmin sampleEntry emptyRegistry rfl

/-- Claim C6: constructing a descriptor whose scopes contain the
Extension scope while its extensions list is empty fails with a
validation error (`ValueError`) at construction time; construction with
a non-empty extensions list succeeds. -/
theorem C6_construct_validation (kn dn ep ct : String) (icon : Option String)
    (scopes : List TargetScope) (exts : List String) :
    (TargetScope.EXTENSION ∈ scopes → exts = [] →
      MenuEntry.construct kn dn ep ct icon scopes exts = .error .valueError) ∧
    (exts ≠ [] →
      ∃ e, MenuEntry.construct kn dn ep ct icon scopes exts = .ok e) := by
  constructor
  · intro hs he
    unfold MenuEntry.construct
    rw [if_pos ⟨hs, he⟩]
  · intro he
    unfold MenuEntry.construct
    rw [if_neg (fun hc => he hc.2)]
    exact ⟨_, rfl⟩

/-- Witness for C6 at concrete inputs. -/
theorem C6_construct_validation_witness :
    MenuEntry.construct "Foo" "Foo" "C:\\Apps\\Foo.exe"
      "\"{exe_path}\" \"{target}\"" none [TargetScope.EXTENSION] [] =
      .error .valueError ∧
    ∃ e, MenuEntry.construct "Foo" "Foo" "C:\\Apps\\Foo.exe"
      "\"{exe_path}\" \"{target}\"" none [TargetScope.EXTENSION] [".txt"] =
      .ok e :=
  ⟨(C6_construct_validation _ _ _ _ _ _ _).1 (by decide) rfl,
   (C6_construct_validation _ _ _ _ _ _ _).2 (by decide)⟩

/-- Claim C8: a descriptor is fully determined at construction — each
field of a successfully constructed descriptor equals its
construction-time (normalized) value, validation runs exactly once
inside the constructor, and the validation invariant (Extension scope
implies non-empty extensions) holds of the constructed value.  In this
embedding descriptors are pure values, so no later operation can change
a field. -/
theorem C8_descriptor_immutable (kn dn ep ct : String) (icon : Option String)
    (scopes : List TargetScope) (exts : List String) (e : MenuEntry)
    (h : MenuEntry.construct kn dn ep ct icon scopes exts = .ok e) :
    e.key_name = kn ∧ e.display_name = dn ∧ e.exe_path = slashToBackslash ep ∧
    e.command_template = ct ∧
    e.icon = (if pyTruthy icon then icon.map slashToBackslash else icon) ∧
    e.scopes = scopes ∧ e.extensions = exts.map normalizeExt ∧
    (TargetScope.EXTENSION ∈ e.scopes → e.extensions ≠ []) := by
  unfold MenuEntry.construct at h
  by_cases hc : TargetScope.EXTENSION ∈ scopes ∧ exts = []
  · rw [if_pos hc] at h
    exact absurd h (by simp)
  · rw [if_neg hc] at h
    obtain rfl := (Except.ok.inj h).symm
    refine ⟨rfl, rfl, rfl, rfl, rfl, rfl, rfl, ?_⟩
    intro hmem hnil
    simp only [List.map_eq_nil_iff] at hnil
    exact hc ⟨hmem, hnil⟩

/-- Witness for C8 at a concrete construction. -/
theorem C8_descriptor_immutable_witness :
    sampleEntry.key_name = "Foo" ∧
    sampleEntry.display_name = "Open with Foo" ∧
    sampleEntry.exe_path = slashToBackslash "C:/Apps/Foo.exe" ∧
    sampleEntry.command_template = "\"{exe_path}\" \"{target}\"" ∧
    sampleEntry.icon =
      (if pyTruthy none then (none : Option String).map slashToBackslash
       else none) ∧
    sampleEntry.scopes = [TargetScope.ALL_FILES] ∧
    sampleEntry.extensions = List.map normalizeExt [] ∧
    (TargetScope.EXTENSION ∈ sampleEntry.scopes → sampleEntry.extensions ≠ []) :=
  C8_descriptor_immutable "Foo" "Open with Foo" "C:/Apps/Foo.exe"
    "\"{exe_path}\" \"{target}\"" none [TargetScope.ALL_FILES] [] sampleEntry
    (by decide)

/-- Claim C9: ReadDetails invoked with the Extension scope returns
not-found (`none`) unconditionally, for every key name and registry
state, because the scope-to-root dictionary `_SCOPE_ROOTS` has no
EXTENSION entry. -/
theorem C9_read_details_extension_none (reg : Registry) (key_name : String) :
    read_entry_details reg .EXTENSION key_name = none := rfl

/-- Claim C5: for every descriptor, Add and Remove on a store constructed
in dry-run mode perform no registry mutation: a successful dry-run call
returns the registry unchanged, so the results of List and ReadDetails
are identical before and after the call. -/
theorem C5_dry_run_no_mutation (env : Env) (entry : MenuEntry) (reg reg' : Registry) :
    (add_entry true env entry reg = .ok reg' →
      reg' = reg ∧
      (∀ scope ext, list_entries reg' scope ext = list_entries reg scope ext) ∧
      (∀ scope kn, read_entry_details reg' scope kn =
        read_entry_details reg scope kn)) ∧
    (remove_entry true env entry reg = .ok reg' →
      reg' = reg ∧
      (∀ scope ext, list_entries reg' scope ext = list_entries reg scope ext) ∧
      (∀ scope kn, read_entry_details reg' scope kn =
        read_entry_details reg scope kn)) := by
  constructor
  · intro h
    obtain ⟨-, i, -, hreg'⟩ := add_entry_ok_inv true env entry reg reg' h
    rw [add_writes_dry] at hreg'
    subst hreg'
    exact ⟨rfl, fun _ _ => rfl, fun _ _ => rfl⟩
  · intro h
    cases ha : env.isAdmin
    · rw [remove_entry_not_admin _ _ _ _ ha] at h
      exact absurd h (by simp)
    · rw [remove_entry_eq _ _ _ _ ha, remove_deletes_dry] at h
      obtain rfl := (Except.ok.inj h).symm
      exact ⟨rfl, fun _ _ => rfl, fun _ _ => rfl⟩

/-- Witness for C5: a concrete dry-run add and remove leave the empty
registry unchanged. -/
theorem C5_dry_run_no_mutation_witness :
    (emptyRegistry = emptyRegistry ∧
      (∀ scope ext, list_entries emptyRegistry scope ext =
        list_entries emptyRegistry scope ext) ∧
      (∀ scope kn, read_entry_details emptyRegistry scope kn =
        read_entry_details emptyRegistry scope kn)) ∧
    (emptyRegistry = emptyRegistry ∧
      (∀ scope ext, list_entries emptyRegistry scope ext =
        list_entries emptyRegistry scope ext) ∧
      (∀ scope kn, read_entry_details emptyRegistry scope kn =
        read_entry_details emptyRegistry scope kn)) :=
  ⟨(C5_dry_run_no_mutation envAdmin sampleEntry emptyRegistry emptyRegistry).1
      (by decide),
   (C5_dry_run_no_mutation envAdmin sampleEntry emptyRegistry emptyRegistry).2
      (by decide)⟩

/-- Claim C10: even in dry-run mode, Add performs the elevation check and
the executable/icon path validations before reaching the dry-run branch:
it raises the elevation error when not elevated, and a not-found error
when the target executable (or the icon file, after stripping an
optional comma-index suffix) is absent, despite never writing to the
registry (the error return carries no state). -/
theorem C10_dry_run_validates (env : Env) (entry : MenuEntry) (reg : Registry) :
    (env.isAdmin = false →
      add_entry true env entry reg = .error .permissionError) ∧
    (env.isAdmin = true →
      env.resolve entry.exe_path ∉ env.files →
      env.resolve entry.exe_path ∉ env.dirs →
      add_entry true env entry reg = .error .fileNotFoundError) ∧
    (∀ ic, env.isAdmin = true → entry.icon = some ic →
      (∃ x, validate_exe_path env entry.exe_path = .ok x) →
      env.resolve (pyStrip (pyHeadSplitComma ic)) ∉ env.files →
      env.resolve (pyStrip (pyHeadSplitComma ic)) ∉ env.dirs →
      add_entry true env entry reg = .error .fileNotFoundError) := by
  refine ⟨fun ha => add_entry_not_admin _ _ _ _ ha, ?_, ?_⟩
  · intro ha h1 h2
    apply add_entry_exe_err _ _ _ _ _ ha
    unfold validate_exe_path
    rw [if_neg (by rintro (h | h); exacts [h1 h, h2 h])]
  · intro ic ha hic hexe h1 h2
    obtain ⟨x, hx⟩ := hexe
    apply add_entry_icon_err _ _ _ _ x _ ha hx
    rw [hic]
    show (if env.resolve (pyStrip (pyHeadSplitComma ic)) ∈ env.files ∨
        env.resolve (pyStrip (pyHeadSplitComma ic)) ∈ env.dirs then
        if env.resolve (pyStrip (pyHeadSplitComma ic)) ∈ env.files then
          Except.ok (some ic)
        else Except.error PyErr.fileNotFoundError
      else Except.error PyErr.fileNotFoundError) =
      Except.error PyErr.fileNotFoundError
    rw [if_neg (by rintro (h | h); exacts [h1 h, h2 h])]

/-- Witness for C10: the three dry-run error cases at concrete inputs. -/
theorem C10_dry_run_validates_witness :
    add_entry true envNotAdmin sampleEntry emptyRegistry =
      .error .permissionError ∧
    add_entry true envAdmin sampleEntryMissing emptyRegistry =
      .error .fileNotFoundError ∧
    add_entry true envAdmin sampleEntryBadIcon emptyRegistry =
      .error .fileNotFoundError :=
  ⟨(C10_dry_run_validates envNotAdmin sampleEntry emptyRegistry).1 rfl,
   (C10_dry_run_validates envAdmin sampleEntryMissing emptyRegistry).2.1 rfl
     (by decide) (by decide),
   (C10_dry_run_validates envAdmin sampleEntryBadIcon emptyRegistry).2.2
     "C:\\Apps\\NoIcon.ico" rfl rfl ⟨"C:\\Apps\\Foo.exe", by decide⟩
     (by decide) (by decide)⟩

/-- Claim C7: IsClassicForced returns true exactly when the flag key
exists and its default value is the empty string; absence of the key or
any read failure yields false, never a raised error (the function is
total into Bool); it returns true immediately after a non-dry
ForceClassic and false immediately after a successful non-dry
RestoreModern. -/
theorem C7_classic_menu_flag (reg reg' : Registry) :
    (is_classic_menu_forced reg = true ↔
      (∃ vs, findKey reg.hkcu _WIN11_CLSID = some vs ∧
        vs.lookup "" = some "")) ∧
    (findKey reg.hkcu _WIN11_CLSID = none →
      is_classic_menu_forced reg = false) ∧
    is_classic_menu_forced (force_classic_menu false reg) = true ∧
    (restore_modern_menu false reg = .ok reg' →
      is_classic_menu_forced reg' = false) := by
  refine ⟨?_, ?_, force_classic_true reg, ?_⟩
  · unfold is_classic_menu_forced
    cases hf : findKey reg.hkcu _WIN11_CLSID with
    | none =>
      rw [queryValue_absent _ _ _ hf]
      simp
    | some vs =>
      have hq : queryValue reg.hkcu _WIN11_CLSID "" =
          (match vs.lookup "" with
           | none => .error .fileNotFoundError
           | some d => .ok d) := by
        unfold queryValue
        rw [hf]
      rw [hq]
      cases hl : vs.lookup "" with
      | none => simp [hl]
      | some d =>
        constructor
        · intro hb
          have hb' : (d == "") = true := hb
          exact ⟨vs, rfl, by rw [hl, eq_of_beq hb']⟩
        · rintro ⟨vs', hvs', hl'⟩
          obtain rfl := Option.some.inj hvs'
          rw [hl] at hl'
          obtain rfl := Option.some.inj hl'
          show (("" : String) == "") = true
          rfl
  · intro hf
    unfold is_classic_menu_forced
    rw [queryValue_absent _ _ _ hf]
  · intro hres
    unfold restore_modern_menu at hres
    simp only [Bool.false_eq_true, if_false] at hres
    cases hd : deleteKey reg.hkcu _WIN11_CLSID with
    | error e =>
      rw [hd] at hres
      cases e with
      | fileNotFoundError =>
        have hres' : (Except.ok reg : Except PyErr Registry) = .ok reg' := hres
        obtain rfl := (Except.ok.inj hres').symm
        unfold is_classic_menu_forced
        rw [queryValue_absent _ _ _ (deleteKey_fnf_inv _ _ hd)]
      | permissionError =>
        have hres' : (Except.error PyErr.permissionError :
            Except PyErr Registry) = .ok reg' := hres
        exact absurd hres' (by simp)
      | valueError =>
        have hres' : (Except.error PyErr.valueError :
            Except PyErr Registry) = .ok reg' := hres
        exact absurd hres' (by simp)
      | keyError =>
        have hres' : (Except.error PyErr.keyError :
            Except PyErr Registry) = .ok reg' := hres
        exact absurd hres' (by simp)
      | osError =>
        have hres' : (Except.error PyErr.osError :
            Except PyErr Registry) = .ok reg' := hres
        exact absurd hres' (by simp)
    | ok h1 =>
      rw [hd] at hres
      have hW1 : _WIN11_CLSID ∉ keysOf h1 := by
        rw [deleteKey_ok_inv _ _ _ hd, mem_keysOf_filter_ne]
        rintro ⟨-, hne⟩
        exact hne rfl
      have hres' : (Except.ok { reg with hkcu :=
          (match deleteKey h1 _WIN11_CLSID_PARENT with
           | .ok h' => h'
           | .error _ => h1) } : Except PyErr Registry) = .ok reg' := hres
      cases hp : deleteKey h1 _WIN11_CLSID_PARENT with
      | ok h' =>
        rw [hp] at hres'
        obtain rfl := (Except.ok.inj hres').symm
        have hW2 : _WIN11_CLSID ∉ keysOf h' := by
          rw [deleteKey_ok_inv _ _ _ hp, mem_keysOf_filter_ne]
          rintro ⟨hmem, -⟩
          exact hW1 hmem
        unfold is_classic_menu_forced
        rw [queryValue_absent _ _ _ ((findKey_eq_none_iff _ _).mpr hW2)]
      | error e2 =>
        rw [hp] at hres'
        obtain rfl := (Except.ok.inj hres').symm
        unfold is_classic_menu_forced
        rw [queryValue_absent _ _ _ ((findKey_eq_none_iff _ _).mpr hW1)]

/-- Witness for C7: the flag is not forced on the empty registry, forced
right after ForceClassic, and not forced after RestoreModern. -/
theorem C7_classic_menu_flag_witness :
    is_classic_menu_forced emptyRegistry = false ∧
    is_classic_menu_forced (force_classic_menu false emptyRegistry) = true ∧
    is_classic_menu_forced afterRestore = false :=
  ⟨(C7_classic_menu_flag emptyRegistry emptyRegistry).2.1 (by decide),
   (C7_classic_menu_flag emptyRegistry emptyRegistry).2.2.1,
   (C7_classic_menu_flag classicReg afterRestore).2.2.2 (by decide)⟩

/-- Claim C3: for every valid descriptor (non-empty, backslash-free key
name, per the data model) and every requested scope other than
Extension, calling Add one or more times under a passing environment and
then List(scope) yields a sequence containing the descriptor's key_name
exactly once, for any number of repetitions — Add is idempotent under
registry create-or-overwrite semantics.  The initial registry only needs
well-formed (duplicate-free) key paths, as every real registry has. -/
theorem C3_add_idempotent (env : Env) (entry : MenuEntry) (reg : Registry)
    (scope : TargetScope) (n : Nat)
    (ha : env.isAdmin = true)
    (hexe : ∃ x, validate_exe_path env entry.exe_path = .ok x)
    (hicon : ∃ i, validate_icon_path env entry.icon = .ok i)
    (hkn1 : entry.key_name.data ≠ []) (hkn2 : '\\' ∉ entry.key_name.data)
    (hs : scope ∈ entry.scopes) (hsx : scope ≠ .EXTENSION)
    (hnd : (keysOf reg.hkcr).Nodup) (hn : 1 ≤ n) :
    ∃ reg' l, addTimes false env entry n reg = .ok reg' ∧
      list_entries reg' scope none = .ok l ∧
      l.count entry.key_name = 1 := by
  obtain ⟨i, hi⟩ := hicon
  obtain ⟨root, hr⟩ : ∃ r, _SCOPE_ROOTS scope = some r := by
    cases scope with
    | EXTENSION => exact absurd rfl hsx
    | ALL_FILES => exact ⟨_, rfl⟩
    | DIRECTORY => exact ⟨_, rfl⟩
    | DIR_BACKGROUND => exact ⟨_, rfl⟩
  obtain ⟨m, rfl⟩ : ∃ m, n = m + 1 := ⟨n - 1, by omega⟩
  obtain ⟨reg0, hnd0, heq⟩ := addTimes_final env entry i ha hexe hi m reg hnd
  have hpost := add_writes_post entry i reg0 scope root hkn1 hkn2 hs hr hnd0
  exact ⟨_, _, heq, list_entries_eq _ scope root hr hpost.1, hpost.2⟩

/-- Witness for C3: two concrete adds of the same descriptor leave
exactly one `Foo` under the all-files root. -/
theorem C3_add_idempotent_witness :
    ∃ reg' l, addTimes false envAdmin sampleEntry 2 emptyRegistry = .ok reg' ∧
      list_entries reg' TargetScope.ALL_FILES none = .ok l ∧
      l.count sampleEntry.key_name = 1 :=
  C3_add_idempotent envAdmin sampleEntry emptyRegistry TargetScope.ALL_FILES 2
    rfl ⟨"C:\\Apps\\Foo.exe", by decide⟩ ⟨none, by decide⟩ (by decide)
    (by decide) (by decide) (by decide) (by decide) (by decide)

/-- Claim C4: for a descriptor's (scope, resolved path) pair, Remove
deletes the `command` subkey before the parent entry key (the parent
delete only succeeds because the child went first), treats missing keys
as already satisfied, and so succeeds on a fully absent entry; in
particular, after a successful Add of a single-scope descriptor into a
registry with no foreign keys under the entry path, Remove succeeds,
List(scope) no longer contains key_name, and a second Remove succeeds
without changing anything. -/
theorem C4_remove_idempotent (env : Env) (entry : MenuEntry) (reg reg1 : Registry)
    (scope : TargetScope) (root : String)
    (hscopes : entry.scopes = [scope]) (hsx : scope ≠ .EXTENSION)
    (hr : _SCOPE_ROOTS scope = some root)
    (hkn1 : entry.key_name.data ≠ []) (hkn2 : '\\' ∉ entry.key_name.data)
    (hfresh : ∀ q ∈ keysOf reg.hkcr,
      q ≠ root ++ "\\" ++ entry.key_name ∧
      isStrictUnder (root ++ "\\" ++ entry.key_name) q = false)
    (hadd : add_entry false env entry reg = .ok reg1) :
    (∃ reg2, remove_entry false env entry reg1 = .ok reg2 ∧
      (∃ l, list_entries reg2 scope none = .ok l ∧ entry.key_name ∉ l) ∧
      remove_entry false env entry reg2 = .ok reg2) ∧
    (∀ (r0 : Registry) (root' kn' : String),
      (root' ++ "\\" ++ kn') ∉ keysOf r0.hkcr →
      (root' ++ "\\" ++ kn' ++ "\\command") ∉ keysOf r0.hkcr →
      _delete_entry false r0 root' kn' = .ok r0) := by
  refine ⟨?_, fun r0 root' kn' hk hc => delete_entry_ok_of_absent r0 root' kn' hk hc⟩
  obtain ⟨ha, i, hi, hreg1⟩ := add_entry_ok_inv false env entry reg reg1 hadd
  rw [add_writes_single entry i reg scope root hscopes hsx hr] at hreg1
  subst hreg1
  have hclass : ∀ q ∈ keysOf (_write_entry false reg root entry
      (_SCOPE_PLACEHOLDER scope) i).hkcr,
      q ∈ keysOf reg.hkcr ∨
      q ∈ pathAncestors (root ++ "\\" ++ entry.key_name) ∨
      q = root ++ "\\" ++ entry.key_name ++ "\\command" := by
    intro q hq
    rcases (mem_keysOf_write_entry reg root entry _ i q).mp hq with h0 | hk | hc
    · exact Or.inl h0
    · exact Or.inr (Or.inl hk)
    · rw [anc_cmd_eq] at hc
      rcases List.mem_append.mp hc with h | h
      · exact Or.inr (Or.inl h)
      · exact Or.inr (Or.inr (List.mem_singleton.mp h))
  have hknlen : 1 ≤ entry.key_name.data.length := List.length_pos.mpr hkn1
  have hkeylen : (root ++ "\\" ++ entry.key_name).data.length =
      root.data.length + 1 + entry.key_name.data.length :=
    length_join root entry.key_name
  have hcmdlen : (root ++ "\\" ++ entry.key_name ++ "\\command").data.length =
      (root ++ "\\" ++ entry.key_name).data.length + 8 := cmd_length _
  have hmemcmd : (root ++ "\\" ++ entry.key_name ++ "\\command") ∈
      keysOf (_write_entry false reg root entry (_SCOPE_PLACEHOLDER scope) i).hkcr :=
    (mem_keysOf_write_entry reg root entry _ i _).mpr
      (Or.inr (Or.inr (self_mem_pathAncestors _)))
  have hmemkey : (root ++ "\\" ++ entry.key_name) ∈
      keysOf (_write_entry false reg root entry (_SCOPE_PLACEHOLDER scope) i).hkcr :=
    (mem_keysOf_write_entry reg root entry _ i _).mpr
      (Or.inr (Or.inl (self_mem_pathAncestors _)))
  have hmemroot : root ∈
      keysOf (_write_entry false reg root entry (_SCOPE_PLACEHOLDER scope) i).hkcr :=
    (mem_keysOf_write_entry reg root entry _ i _).mpr
      (Or.inr (Or.inl (root_mem_pathAncestors root entry.key_name hkn2)))
  have hch_cmd : ∀ q ∈ keysOf (_write_entry false reg root entry
      (_SCOPE_PLACEHOLDER scope) i).hkcr,
      isStrictUnder (root ++ "\\" ++ entry.key_name ++ "\\command") q = false := by
    intro q hq
    rcases hclass q hq with h0 | hk | hc
    · cases hb : isStrictUnder (root ++ "\\" ++ entry.key_name ++ "\\command") q
      · rfl
      · exfalso
        have htr := strictUnder_cmd_trans (root ++ "\\" ++ entry.key_name) q hb
        rw [(hfresh q h0).2] at htr
        simp at htr
    · exact not_strictUnder_of_ancestor _ q _ hk (by rw [hcmdlen]; omega)
    · subst hc
      exact not_strictUnder_of_ancestor _ _ _ (self_mem_pathAncestors _) (le_refl _)
  have hkey_ne_cmd : (root ++ "\\" ++ entry.key_name) ≠
      root ++ "\\" ++ entry.key_name ++ "\\command" :=
    ne_of_data_length_lt _ _ (by rw [hcmdlen]; omega)
  have hmemkey' : (root ++ "\\" ++ entry.key_name) ∈
      keysOf ((_write_entry false reg root entry
        (_SCOPE_PLACEHOLDER scope) i).hkcr.filter
        fun kv => kv.1 ≠ root ++ "\\" ++ entry.key_name ++ "\\command") :=
    (mem_keysOf_filter_ne _ _ _).mpr ⟨hmemkey, hkey_ne_cmd⟩
  have hch_key : ∀ q ∈ keysOf ((_write_entry false reg root entry
      (_SCOPE_PLACEHOLDER scope) i).hkcr.filter
      fun kv => kv.1 ≠ root ++ "\\" ++ entry.key_name ++ "\\command"),
      isStrictUnder (root ++ "\\" ++ entry.key_name) q = false := by
    intro q hq
    obtain ⟨hq1, hq2⟩ := (mem_keysOf_filter_ne _ _ _).mp hq
    rcases hclass q hq1 with h0 | hk | hc
    · exact (hfresh q h0).2
    · exact not_strictUnder_of_ancestor _ q _ hk (le_refl _)
    · exact absurd hc hq2
  have hdel := delete_entry_ok_present
    (_write_entry false reg root entry (_SCOPE_PLACEHOLDER scope) i) root
    entry.key_name hmemcmd hch_cmd hmemkey' hch_key
  refine ⟨{ _write_entry false reg root entry (_SCOPE_PLACEHOLDER scope) i with
      hkcr := (((_write_entry false reg root entry
        (_SCOPE_PLACEHOLDER scope) i).hkcr.filter
        fun kv => kv.1 ≠ root ++ "\\" ++ entry.key_name ++ "\\command").filter
        (fun kv => kv.1 ≠ root ++ "\\" ++ entry.key_name)) }, ?_, ?_, ?_⟩
  · rw [remove_entry_eq _ _ _ _ ha,
      remove_deletes_single entry _ scope root hscopes hsx hr]
    exact hdel
  · have hmemroot2 : root ∈ keysOf (((_write_entry false reg root entry
        (_SCOPE_PLACEHOLDER scope) i).hkcr.filter
        fun kv => kv.1 ≠ root ++ "\\" ++ entry.key_name ++ "\\command").filter
        (fun kv => kv.1 ≠ root ++ "\\" ++ entry.key_name)) := by
      rw [mem_keysOf_filter_ne]
      refine ⟨(mem_keysOf_filter_ne _ _ _).mpr ⟨hmemroot, ?_⟩, ?_⟩
      · exact ne_of_data_length_lt _ _ (by rw [hcmdlen, hkeylen]; omega)
      · exact ne_of_data_length_lt _ _ (by rw [hkeylen]; omega)
    refine ⟨_, list_entries_eq _ scope root hr ?_, ?_⟩
    · rw [Ne, findKey_eq_none_iff]
      simpa using hmemroot2
    · intro hmem
      obtain ⟨q, hq, hdc⟩ := List.mem_filterMap.mp hmem
      obtain rfl :=
        (directChildName_eq_some_iff root q entry.key_name hkn1 hkn2).mp hdc
      exact ((mem_keysOf_filter_ne _ _ _).mp hq).2 rfl
  · rw [remove_entry_eq _ _ _ _ ha,
      remove_deletes_single entry _ scope root hscopes hsx hr]
    apply delete_entry_ok_of_absent
    · intro hmem
      exact ((mem_keysOf_filter_ne _ _ _).mp hmem).2 rfl
    · intro hmem
      obtain ⟨hm1, -⟩ := (mem_keysOf_filter_ne _ _ _).mp hmem
      exact ((mem_keysOf_filter_ne _ _ _).mp hm1).2 rfl

/-- Witness for C4 at a concrete add-then-remove roundtrip. -/
theorem C4_remove_idempotent_witness :
    (∃ reg2, remove_entry false envAdmin sampleEntry
        (add_writes false sampleEntry none emptyRegistry) = .ok reg2 ∧
      (∃ l, list_entries reg2 TargetScope.ALL_FILES none = .ok l ∧
        sampleEntry.key_name ∉ l) ∧
      remove_entry false envAdmin sampleEntry reg2 = .ok reg2) ∧
    (∀ (r0 : Registry) (root' kn' : String),
      (root' ++ "\\" ++ kn') ∉ keysOf r0.hkcr →
      (root' ++ "\\" ++ kn' ++ "\\command") ∉ keysOf r0.hkcr →
      _delete_entry false r0 root' kn' = .ok r0) :=
  C4_remove_idempotent envAdmin sampleEntry emptyRegistry
    (add_writes false sampleEntry none emptyRegistry) TargetScope.ALL_FILES
    "*\\shell" rfl (by decide) rfl (by decide) (by decide)
    (by decide) (by decide)

end ContextMenuCreator
